import Mathlib

/-!
Verification of the Teamarr EPG system against its natural-language
specification.  Each section shallowly embeds one subsystem of the source
(Python) into Lean: pure functions become Lean functions, database rows
become records, sets of channel numbers become lists, and the theorems at
the end of the file settle the frozen claims about the corresponding code.
-/

namespace Teamarr

/-! ## Channel numbering and external occupation

Embeds `compute_external_occupied` from
`src/teamarr/consumers/lifecycle/__init__.py` and the channel-number
assignment it feeds.  A Dispatcharr channel row carries an optional parsed
channel number (`None`/unparseable numbers are dropped by the source's
`try/except`); a Teamarr `managed_channels` row carries an optional number
and a deletion marker (the source's SQL keeps rows with
`deleted_at IS NULL AND channel_number IS NOT NULL`). -/

structure DispatcharrChannel where
  channel_number : Option Nat
deriving Repr, DecidableEq

structure ManagedChannelRow where
  channel_number : Option Nat
  deleted : Bool
deriving Repr, DecidableEq

/-- Channel numbers present in Dispatcharr (rows with a parseable number). -/
def dispatcharr_numbers (chans : List DispatcharrChannel) : List Nat :=
  chans.filterMap (·.channel_number)

/-- Channel numbers of Teamarr's non-deleted managed channels
(`WHERE deleted_at IS NULL AND channel_number IS NOT NULL`). -/
def teamarr_numbers (rows : List ManagedChannelRow) : List Nat :=
  (rows.filter (fun r => !r.deleted)).filterMap (·.channel_number)

/-- `compute_external_occupied`: all Dispatcharr numbers minus Teamarr's
non-deleted managed numbers (`external = dispatcharr_numbers - teamarr_numbers`). -/
def compute_external_occupied (chans : List DispatcharrChannel)
    (rows : List ManagedChannelRow) : List Nat :=
  (dispatcharr_numbers chans).filter (fun n => n ∉ teamarr_numbers rows)

/-- Modelled from the spec: the function `get_next_channel_number` of
`teamarr/database/channel_numbers.py` is absent from the sources (only its
tests in `src/tests/test_channel_collision_awareness.py` and its caller
remain).  Per the spec's §4.5.2 and the tests, assignment starts at the
group's start number and returns the first number occupied neither by a
Teamarr managed channel nor by an external channel.  `next_free` walks
upward from `start`, removing each occupied number it lands on. -/
def next_free (start : Nat) (occ : List Nat) : Nat :=
  if h : start ∈ occ then next_free (start + 1) (occ.erase start) else start
termination_by occ.length
decreasing_by have := List.length_erase_add_one h; omega

/-- Modelled from the spec: `get_next_channel_number(conn, group,
external_occupied)` — first number at or above the group's
`channel_start_number` that is neither a Teamarr managed number nor in
`external_occupied`; an absent external set behaves as the empty set. -/
def get_next_channel_number (start : Nat) (rows : List ManagedChannelRow)
    (external_occupied : Option (List Nat)) : Nat :=
  next_free start (teamarr_numbers rows ++ external_occupied.getD [])

theorem next_free_ge (start : Nat) (occ : List Nat) : start ≤ next_free start occ := by
  unfold next_free
  split
  · rename_i h
    have := next_free_ge (start + 1) (occ.erase start)
    omega
  · exact Nat.le_refl _
termination_by occ.length
decreasing_by have := List.length_erase_add_one (by assumption : start ∈ occ); omega

theorem next_free_not_mem (start : Nat) (occ : List Nat) : next_free start occ ∉ occ := by
  unfold next_free
  split
  · rename_i h
    intro hmem
    have hge := next_free_ge (start + 1) (occ.erase start)
    have hne : next_free (start + 1) (occ.erase start) ≠ start := by omega
    have : next_free (start + 1) (occ.erase start) ∈ occ.erase start :=
      (List.mem_erase_of_ne hne).mpr hmem
    exact next_free_not_mem (start + 1) (occ.erase start) this
  · rename_i h
    exact h
termination_by occ.length
decreasing_by have := List.length_erase_add_one (by assumption : start ∈ occ); omega

/-- Walking a contiguous occupied block `[start, start+n)` lands at `start+n`. -/
theorem next_free_range (start n : Nat) : next_free start (List.range' start n) = start + n := by
  induction n generalizing start with
  | zero =>
    unfold next_free
    simp
  | succ m ih =>
    unfold next_free
    have hmem : start ∈ List.range' start (m + 1) := by
      simp [List.mem_range']
    rw [dif_pos hmem]
    have herase : (List.range' start (m + 1)).erase start = List.range' (start + 1) m := by
      rw [List.range'_succ]
      simp [List.erase_cons]
    rw [herase, ih]
    omega

/-- C3: `external_occupied` is exactly the set of Dispatcharr channel numbers
minus the numbers of Teamarr's non-deleted managed channels; assignment skips
every number in this set (and every Teamarr number); an empty external set
behaves identically to passing no set; and with group start 100 and externals
occupying 100..15000 the next assigned number is 15001. -/
theorem external_occupation_correct (chans : List DispatcharrChannel)
    (rows : List ManagedChannelRow) (start : Nat) :
    (∀ n, n ∈ compute_external_occupied chans rows ↔
      n ∈ dispatcharr_numbers chans ∧ n ∉ teamarr_numbers rows) ∧
    (get_next_channel_number start rows (some (compute_external_occupied chans rows)) ∉
        compute_external_occupied chans rows ∧
      get_next_channel_number start rows (some (compute_external_occupied chans rows)) ∉
        teamarr_numbers rows) ∧
    get_next_channel_number start rows (some []) = get_next_channel_number start rows none ∧
    get_next_channel_number 100 [] (some (List.range' 100 14901)) = 15001 := by
  refine ⟨?_, ⟨?_, ?_⟩, ?_, ?_⟩
  · intro n
    simp [compute_external_occupied]
  · intro hmem
    exact next_free_not_mem start _ (List.mem_append_right _ hmem)
  · intro hmem
    exact next_free_not_mem start _ (List.mem_append_left _ hmem)
  · rfl
  · show next_free 100 (teamarr_numbers [] ++ List.range' 100 14901) = 15001
    have : teamarr_numbers [] ++ List.range' 100 14901 = List.range' 100 14901 := rfl
    rw [this, next_free_range]

/-! ## Stream↔event abbreviation-token matching

`TeamMatcher._check_abbreviation_match` lives in
`teamarr/consumers/matching/team_matcher.py`, which is absent from the
sources; only its tests (`src/tests/test_stream_matching.py`) remain.  The
model below follows the spec §4.4 and those tests. -/

/-- Python-style `str.lower()` restricted to the ASCII range used by
abbreviations and stream names. -/
def py_lower (s : String) : String := ⟨s.data.map Char.toLower⟩

/-- Accumulator-based splitter: maximal alphanumeric runs, lowercased. -/
def tokenize_aux : List Char → List Char → List String
  | [], acc => if acc = [] then [] else [String.mk acc.reverse]
  | c :: rest, acc =>
      if c.isAlphanum then tokenize_aux rest (c.toLower :: acc)
      else if acc = [] then tokenize_aux rest []
      else String.mk acc.reverse :: tokenize_aux rest []

/-- Modelled from the spec: stream-name normalization — lowercase, collapse
whitespace, strip punctuation that does not separate tokens; the resulting
token list is the maximal alphanumeric runs, lowercased. -/
def norm_tokens (s : String) : List String := tokenize_aux s.data []

/-- One stream side contains a token equal (case-insensitively) to the given
team abbreviation. -/
def token_match (side ab : String) : Bool :=
  (norm_tokens side).contains (py_lower ab)

/-- Modelled from the spec: `TeamMatcher._check_abbreviation_match` (file
`teamarr/consumers/matching/team_matcher.py` missing from the sources).
Per spec §4.4 step 1 and `test_stream_matching.py`: if either event
abbreviation is shorter than 3 characters the check is skipped entirely;
otherwise each provided stream side must contain a token equal
(case-insensitively) to one of the event's abbreviations — both sides, when
provided, must match one team each, reversed order allowed — and a
successful check scores 100. -/
def check_abbreviation_match (team1 team2 : Option String)
    (home_abbrev away_abbrev : String) : Option Nat :=
  if home_abbrev.length < 3 || away_abbrev.length < 3 then none
  else
    match team1, team2 with
    | none, none => none
    | some a, none =>
        if token_match a home_abbrev || token_match a away_abbrev then some 100 else none
    | none, some b =>
        if token_match b home_abbrev || token_match b away_abbrev then some 100 else none
    | some a, some b =>
        if (token_match a home_abbrev && token_match b away_abbrev)
            || (token_match a away_abbrev && token_match b home_abbrev) then some 100 else none

/-- C4: with both stream sides provided, the abbreviation-token check returns
score 100 exactly when both event abbreviations are at least 3 characters and
each side carries a token equal (case-insensitively) to a distinct team's
abbreviation, reversed order allowed; any produced score is 100; a 2-letter
abbreviation disables the check; and a match on only one provided side yields
no match. -/
theorem abbreviation_match_correct (a b home_abbrev away_abbrev : String) :
    (check_abbreviation_match (some a) (some b) home_abbrev away_abbrev = some 100 ↔
      (3 ≤ home_abbrev.length ∧ 3 ≤ away_abbrev.length ∧
        ((token_match a home_abbrev ∧ token_match b away_abbrev) ∨
          (token_match a away_abbrev ∧ token_match b home_abbrev)))) ∧
    (∀ t1 t2 r, check_abbreviation_match t1 t2 home_abbrev away_abbrev = some r → r = 100) ∧
    (home_abbrev.length = 2 ∨ away_abbrev.length = 2 →
      ∀ t1 t2, check_abbreviation_match t1 t2 home_abbrev away_abbrev = none) ∧
    ((token_match a home_abbrev ∨ token_match a away_abbrev) →
      ¬ token_match b home_abbrev → ¬ token_match b away_abbrev →
      check_abbreviation_match (some a) (some b) home_abbrev away_abbrev = none) := by
  have hred : check_abbreviation_match (some a) (some b) home_abbrev away_abbrev =
      if home_abbrev.length < 3 || away_abbrev.length < 3 then none
      else if (token_match a home_abbrev && token_match b away_abbrev)
          || (token_match a away_abbrev && token_match b home_abbrev) then some 100
      else none := by
    unfold check_abbreviation_match
    by_cases hl : (home_abbrev.length < 3 || away_abbrev.length < 3) = true
    · rw [if_pos hl]
    · rw [if_neg hl]
  refine ⟨?_, ?_, ?_, ?_⟩
  · rw [hred]
    by_cases hl : (home_abbrev.length < 3 || away_abbrev.length < 3) = true
    · rw [if_pos hl]
      simp only [Bool.or_eq_true, decide_eq_true_eq] at hl
      constructor
      · intro h
        exact absurd h (by simp)
      · rintro ⟨h1, h2, -⟩
        omega
    · rw [if_neg hl]
      simp only [Bool.or_eq_true, decide_eq_true_eq, not_or, not_lt] at hl
      constructor
      · intro h
        by_cases hc : ((token_match a home_abbrev && token_match b away_abbrev)
            || (token_match a away_abbrev && token_match b home_abbrev)) = true
        · refine ⟨hl.1, hl.2, ?_⟩
          simpa using hc
        · rw [if_neg hc] at h
          exact absurd h (by simp)
      · rintro ⟨-, -, h3⟩
        have hc : ((token_match a home_abbrev && token_match b away_abbrev)
            || (token_match a away_abbrev && token_match b home_abbrev)) = true := by
          simpa using h3
        rw [if_pos hc]
  · intro t1 t2 r h
    unfold check_abbreviation_match at h
    split at h
    · simp at h
    · match t1, t2 with
      | none, none => simp at h
      | some x, none => split at h <;> simp_all
      | none, some y => split at h <;> simp_all
      | some x, some y => split at h <;> simp_all
  · intro hlen t1 t2
    have hl : (home_abbrev.length < 3 || away_abbrev.length < 3) = true := by
      simp only [Bool.or_eq_true, decide_eq_true_eq]
      omega
    unfold check_abbreviation_match
    rw [if_pos hl]
  · intro ha hb1 hb2
    rw [hred]
    have h1 : (token_match a home_abbrev && token_match b away_abbrev) = false := by
      simp only [Bool.and_eq_false_iff]
      right
      simpa using hb2
    have h2 : (token_match a away_abbrev && token_match b home_abbrev) = false := by
      simp only [Bool.and_eq_false_iff]
      right
      simpa using hb1
    rw [h1, h2]
    simp

/-- C4 witness: the tournament example from the tests — stream `SWE` vs
`ITA (M Group B)` against Sweden (SWE) / Italy (ITA) scores 100, and the
2-letter example `SF`/`NE` never matches. -/
theorem abbreviation_match_correct_witness :
    check_abbreviation_match (some "SWE") (some "ITA (M Group B)") "SWE" "ITA" = some 100 ∧
    check_abbreviation_match (some "SF") (some "NE") "SF" "NE" = none := by
  constructor
  · exact (abbreviation_match_correct "SWE" "ITA (M Group B)" "SWE" "ITA").1.mpr
      ⟨by decide, by decide, Or.inl ⟨by decide, by decide⟩⟩
  · exact (abbreviation_match_correct "SF" "NE" "SF" "NE").2.2.1 (Or.inl (by decide))
      (some "SF") (some "NE")

/-! ## Sports-data service (`src/teamarr/services/sports_data.py`)

The service layer is embedded from source.  Its collaborators
`PersistentTTLCache`/`make_cache_key` (`teamarr/utilities/cache.py`) and the
dict serializers (`teamarr/database/provider_cache.py`) are absent from the
sources and are modelled from the spec §4.1/§4.2: the cache is a keyed store
with per-entry expiry and lazy eviction, and domain values serialize to a
canonical dict shape. -/

structure Event where
  id : String
  provider : String
  name : String
  date : String
  league : String
  sport : String
deriving Repr, DecidableEq

structure Team where
  id : String
  name : String
  league : String
deriving Repr, DecidableEq

structure TeamStats where
  record : String
  wins : String
  losses : String
deriving Repr, DecidableEq

/-- The canonical dict shape values take on their way into the cache. -/
def Dict := List (String × String)
deriving DecidableEq, Repr

/-- A cached payload: a list of dicts (event lists) or a single dict. -/
inductive CacheVal
  | vlist : List Dict → CacheVal
  | vdict : Dict → CacheVal
deriving Repr, DecidableEq

/-- Modelled from the spec: `event_to_dict` of the absent
`teamarr/database/provider_cache.py` — canonical dict shape of an event. -/
def event_to_dict (e : Event) : Dict :=
  [("id", e.id), ("provider", e.provider), ("name", e.name),
   ("date", e.date), ("league", e.league), ("sport", e.sport)]

/-- Modelled from the spec: `dict_to_event` — rebuild an event from the
canonical dict shape; a missing key raises (`KeyError` → `none`). -/
def dict_to_event (d : Dict) : Option Event := do
  let id ← List.lookup "id" d
  let provider ← List.lookup "provider" d
  let name ← List.lookup "name" d
  let date ← List.lookup "date" d
  let league ← List.lookup "league" d
  let sport ← List.lookup "sport" d
  pure ⟨id, provider, name, date, league, sport⟩

/-- Modelled from the spec: `team_to_dict`. -/
def team_to_dict (t : Team) : Dict :=
  [("id", t.id), ("name", t.name), ("league", t.league)]

/-- Modelled from the spec: `dict_to_team`. -/
def dict_to_team (d : Dict) : Option Team := do
  let id ← List.lookup "id" d
  let name ← List.lookup "name" d
  let league ← List.lookup "league" d
  pure ⟨id, name, league⟩

/-- Modelled from the spec: `stats_to_dict`. -/
def stats_to_dict (s : TeamStats) : Dict :=
  [("record", s.record), ("wins", s.wins), ("losses", s.losses)]

/-- Modelled from the spec: `dict_to_stats`. -/
def dict_to_stats (d : Dict) : Option TeamStats := do
  let record ← List.lookup "record" d
  let wins ← List.lookup "wins" d
  let losses ← List.lookup "losses" d
  pure ⟨record, wins, losses⟩

/-- Deserialize a cached event list (Python's list comprehension raises on
the first malformed entry, falling back to providers). -/
def dicts_to_events : CacheVal → Option (List Event)
  | CacheVal.vlist l => l.mapM dict_to_event
  | CacheVal.vdict _ => none

/-- Deserialize a single cached event. -/
def dict_val_to_event : CacheVal → Option Event
  | CacheVal.vdict d => dict_to_event d
  | CacheVal.vlist _ => none

/-- Deserialize a cached team. -/
def dict_val_to_team : CacheVal → Option Team
  | CacheVal.vdict d => dict_to_team d
  | CacheVal.vlist _ => none

/-- Deserialize cached team stats. -/
def dict_val_to_stats : CacheVal → Option TeamStats
  | CacheVal.vdict d => dict_to_stats d
  | CacheVal.vlist _ => none

/-- Modelled from the spec: the persistent TTL cache (absent
`teamarr/utilities/cache.py`) — entries carry an absolute expiry instant;
`get` returns absent for missing and expired entries alike. -/
def Cache := List (String × CacheVal × Nat)

/-- `get(key)`: the stored value when present and unexpired, else absent. -/
def cache_get : Cache → String → Nat → Option CacheVal
  | [], _, _ => none
  | (k, v, exp) :: rest, key, now =>
      if k = key then (if now < exp then some v else none) else cache_get rest key now

/-- `set(key, value, ttl)`: overwrite; TTL is relative to the wall clock at set. -/
def cache_set (c : Cache) (key : String) (v : CacheVal) (ttl now : Nat) : Cache :=
  (key, v, now + ttl) :: c.filter (fun e => e.1 ≠ key)

/-- Modelled from the spec: `make_cache_key(namespace, parts…)` — a
deterministic composition of namespace and parts. -/
def make_cache_key (ns a b : String) : String := ns ++ ":" ++ a ++ ":" ++ b

/-- Scoreboard / team-schedule TTL: 8 hours. -/
def CACHE_TTL_SCHEDULE : Nat := 8 * 3600

/-- Single-event TTL: 30 minutes (fresh scores/odds). -/
def CACHE_TTL_SINGLE_EVENT : Nat := 30 * 60

/-- Team-stats TTL: 4 hours. -/
def CACHE_TTL_TEAM_STATS : Nat := 4 * 3600

/-- Team-info TTL: 24 hours. -/
def CACHE_TTL_TEAM_INFO : Nat := 24 * 3600

/-- Modelled from the spec: `get_events_cache_ttl(target_date)` — the
scoreboard TTL (the implementation may narrow it for today's date; the
claims depend only on the cached entry receiving the operation's TTL). -/
def get_events_cache_ttl (_target_date : String) : Nat := CACHE_TTL_SCHEDULE

/-- A sports-data provider, per the §4.2 provider contract: `supports_league`
plus the canonical read operations. -/
structure SportsProvider where
  name : String
  supports_league : String → Bool
  p_get_events : String → String → List Event
  p_get_team_schedule : String → String → Nat → List Event
  p_get_team : String → String → Option Team
  p_get_event : String → String → Option Event
  p_get_team_stats : String → String → Option TeamStats

/-- `SportsDataService` state: providers in priority order plus the cache. -/
structure SportsDataService where
  providers : List SportsProvider
  cache : Cache

/-- Provider iteration for `get_events`: the first provider that supports the
league and returns a non-empty result wins. -/
def first_provider_events : List SportsProvider → String → String → Option (List Event)
  | [], _, _ => none
  | p :: ps, league, d =>
      if p.supports_league league then
        let evs := p.p_get_events league d
        if evs = [] then first_provider_events ps league d else some evs
      else first_provider_events ps league d

/-- Provider iteration for `get_team_schedule`. -/
def first_provider_schedule :
    List SportsProvider → String → String → Nat → Option (List Event)
  | [], _, _, _ => none
  | p :: ps, team_id, league, days =>
      if p.supports_league league then
        let evs := p.p_get_team_schedule team_id league days
        if evs = [] then first_provider_schedule ps team_id league days else some evs
      else first_provider_schedule ps team_id league days

/-- Provider iteration for `get_team`. -/
def first_provider_team : List SportsProvider → String → String → Option Team
  | [], _, _ => none
  | p :: ps, team_id, league =>
      if p.supports_league league then
        match p.p_get_team team_id league with
        | some t => some t
        | none => first_provider_team ps team_id league
      else first_provider_team ps team_id league

/-- Provider iteration for `get_event`. -/
def first_provider_event : List SportsProvider → String → String → Option Event
  | [], _, _ => none
  | p :: ps, event_id, league =>
      if p.supports_league league then
        match p.p_get_event event_id league with
        | some e => some e
        | none => first_provider_event ps event_id league
      else first_provider_event ps event_id league

/-- Provider iteration for `get_team_stats`. -/
def first_provider_stats : List SportsProvider → String → String → Option TeamStats
  | [], _, _ => none
  | p :: ps, team_id, league =>
      if p.supports_league league then
        match p.p_get_team_stats team_id league with
        | some s => some s
        | none => first_provider_stats ps team_id league
      else first_provider_stats ps team_id league

/-- `SportsDataService.get_events`: cache hit → deserialize and return;
miss (or undeserializable hit) → first supporting provider with a non-empty
result wins, result serialized and cached with the events TTL. -/
def SportsDataService.get_events (svc : SportsDataService) (league d : String)
    (now : Nat) : List Event × SportsDataService :=
  let key := make_cache_key "events" league d
  let fetched :=
    match first_provider_events svc.providers league d with
    | some evs =>
        (evs, { svc with
          cache := cache_set svc.cache key (CacheVal.vlist (evs.map event_to_dict))
            (get_events_cache_ttl d) now })
    | none => ([], svc)
  match cache_get svc.cache key now with
  | some payload =>
      match dicts_to_events payload with
      | some evs => (evs, svc)
      | none => fetched
  | none => fetched

/-- `SportsDataService.get_team_schedule`. -/
def SportsDataService.get_team_schedule (svc : SportsDataService)
    (team_id league : String) (days_ahead : Nat) (now : Nat) :
    List Event × SportsDataService :=
  let key := make_cache_key "schedule" league team_id
  let fetched :=
    match first_provider_schedule svc.providers team_id league days_ahead with
    | some evs =>
        (evs, { svc with
          cache := cache_set svc.cache key (CacheVal.vlist (evs.map event_to_dict))
            CACHE_TTL_SCHEDULE now })
    | none => ([], svc)
  match cache_get svc.cache key now with
  | some payload =>
      match dicts_to_events payload with
      | some evs => (evs, svc)
      | none => fetched
  | none => fetched

/-- `SportsDataService.get_team`. -/
def SportsDataService.get_team (svc : SportsDataService) (team_id league : String)
    (now : Nat) : Option Team × SportsDataService :=
  let key := make_cache_key "team" league team_id
  let fetched :=
    match first_provider_team svc.providers team_id league with
    | some t =>
        (some t, { svc with
          cache := cache_set svc.cache key (CacheVal.vdict (team_to_dict t))
            CACHE_TTL_TEAM_INFO now })
    | none => (none, svc)
  match cache_get svc.cache key now with
  | some payload =>
      match dict_val_to_team payload with
      | some t => (some t, svc)
      | none => fetched
  | none => fetched

/-- `SportsDataService.get_event`. -/
def SportsDataService.get_event (svc : SportsDataService) (event_id league : String)
    (now : Nat) : Option Event × SportsDataService :=
  let key := make_cache_key "event" league event_id
  let fetched :=
    match first_provider_event svc.providers event_id league with
    | some e =>
        (some e, { svc with
          cache := cache_set svc.cache key (CacheVal.vdict (event_to_dict e))
            CACHE_TTL_SINGLE_EVENT now })
    | none => (none, svc)
  match cache_get svc.cache key now with
  | some payload =>
      match dict_val_to_event payload with
      | some e => (some e, svc)
      | none => fetched
  | none => fetched

/-- `SportsDataService.get_team_stats`. -/
def SportsDataService.get_team_stats (svc : SportsDataService)
    (team_id league : String) (now : Nat) : Option TeamStats × SportsDataService :=
  let key := make_cache_key "stats" league team_id
  let fetched :=
    match first_provider_stats svc.providers team_id league with
    | some s =>
        (some s, { svc with
          cache := cache_set svc.cache key (CacheVal.vdict (stats_to_dict s))
            CACHE_TTL_TEAM_STATS now })
    | none => (none, svc)
  match cache_get svc.cache key now with
  | some payload =>
      match dict_val_to_stats payload with
      | some s => (some s, svc)
      | none => fetched
  | none => fetched

/-- C5: every read on the sports-data service returns the deserialized
cached value on a hit without consulting any provider (the provider list is
irrelevant to the result); on a miss the first provider in priority order
that supports the league and produces a non-empty result wins, the result is
serialized and cached under the computed key with the operation's TTL; and
with no producing provider the read returns an empty list or `none`. -/
theorem sports_data_reads_correct (svc : SportsDataService)
    (league d team_id event_id : String) (days now : Nat) :
    ((∀ payload evs,
        cache_get svc.cache (make_cache_key "events" league d) now = some payload →
        dicts_to_events payload = some evs →
        ∀ provs, (SportsDataService.mk provs svc.cache).get_events league d now =
          (evs, SportsDataService.mk provs svc.cache)) ∧
      (cache_get svc.cache (make_cache_key "events" league d) now = none →
        (∀ evs, first_provider_events svc.providers league d = some evs →
          svc.get_events league d now =
            (evs, { svc with
              cache := cache_set svc.cache (make_cache_key "events" league d)
                (CacheVal.vlist (evs.map event_to_dict)) (get_events_cache_ttl d) now })) ∧
        (first_provider_events svc.providers league d = none →
          svc.get_events league d now = ([], svc)))) ∧
    ((∀ payload evs,
        cache_get svc.cache (make_cache_key "schedule" league team_id) now = some payload →
        dicts_to_events payload = some evs →
        ∀ provs, (SportsDataService.mk provs svc.cache).get_team_schedule team_id league
          days now = (evs, SportsDataService.mk provs svc.cache)) ∧
      (cache_get svc.cache (make_cache_key "schedule" league team_id) now = none →
        (∀ evs, first_provider_schedule svc.providers team_id league days = some evs →
          svc.get_team_schedule team_id league days now =
            (evs, { svc with
              cache := cache_set svc.cache (make_cache_key "schedule" league team_id)
                (CacheVal.vlist (evs.map event_to_dict)) CACHE_TTL_SCHEDULE now })) ∧
        (first_provider_schedule svc.providers team_id league days = none →
          svc.get_team_schedule team_id league days now = ([], svc)))) ∧
    ((∀ payload t,
        cache_get svc.cache (make_cache_key "team" league team_id) now = some payload →
        dict_val_to_team payload = some t →
        ∀ provs, (SportsDataService.mk provs svc.cache).get_team team_id league now =
          (some t, SportsDataService.mk provs svc.cache)) ∧
      (cache_get svc.cache (make_cache_key "team" league team_id) now = none →
        (∀ t, first_provider_team svc.providers team_id league = some t →
          svc.get_team team_id league now =
            (some t, { svc with
              cache := cache_set svc.cache (make_cache_key "team" league team_id)
                (CacheVal.vdict (team_to_dict t)) CACHE_TTL_TEAM_INFO now })) ∧
        (first_provider_team svc.providers team_id league = none →
          svc.get_team team_id league now = (none, svc)))) ∧
    ((∀ payload e,
        cache_get svc.cache (make_cache_key "event" league event_id) now = some payload →
        dict_val_to_event payload = some e →
        ∀ provs, (SportsDataService.mk provs svc.cache).get_event event_id league now =
          (some e, SportsDataService.mk provs svc.cache)) ∧
      (cache_get svc.cache (make_cache_key "event" league event_id) now = none →
        (∀ e, first_provider_event svc.providers event_id league = some e →
          svc.get_event event_id league now =
            (some e, { svc with
              cache := cache_set svc.cache (make_cache_key "event" league event_id)
                (CacheVal.vdict (event_to_dict e)) CACHE_TTL_SINGLE_EVENT now })) ∧
        (first_provider_event svc.providers event_id league = none →
          svc.get_event event_id league now = (none, svc)))) ∧
    ((∀ payload s,
        cache_get svc.cache (make_cache_key "stats" league team_id) now = some payload →
        dict_val_to_stats payload = some s →
        ∀ provs, (SportsDataService.mk provs svc.cache).get_team_stats team_id league now =
          (some s, SportsDataService.mk provs svc.cache)) ∧
      (cache_get svc.cache (make_cache_key "stats" league team_id) now = none →
        (∀ s, first_provider_stats svc.providers team_id league = some s →
          svc.get_team_stats team_id league now =
            (some s, { svc with
              cache := cache_set svc.cache (make_cache_key "stats" league team_id)
                (CacheVal.vdict (stats_to_dict s)) CACHE_TTL_TEAM_STATS now })) ∧
        (first_provider_stats svc.providers team_id league = none →
          svc.get_team_stats team_id league now = (none, svc)))) := by
  refine ⟨⟨?_, ?_⟩, ⟨?_, ?_⟩, ⟨?_, ?_⟩, ⟨?_, ?_⟩, ⟨?_, ?_⟩⟩
  · intro payload evs hget hdes provs
    simp only [SportsDataService.get_events, hget, hdes]
  · intro hget
    refine ⟨fun evs hf => ?_, fun hf => ?_⟩ <;>
      simp only [SportsDataService.get_events, hget, hf]
  · intro payload evs hget hdes provs
    simp only [SportsDataService.get_team_schedule, hget, hdes]
  · intro hget
    refine ⟨fun evs hf => ?_, fun hf => ?_⟩ <;>
      simp only [SportsDataService.get_team_schedule, hget, hf]
  · intro payload t hget hdes provs
    simp only [SportsDataService.get_team, hget, hdes]
  · intro hget
    refine ⟨fun t hf => ?_, fun hf => ?_⟩ <;>
      simp only [SportsDataService.get_team, hget, hf]
  · intro payload e hget hdes provs
    simp only [SportsDataService.get_event, hget, hdes]
  · intro hget
    refine ⟨fun e hf => ?_, fun hf => ?_⟩ <;>
      simp only [SportsDataService.get_event, hget, hf]
  · intro payload s hget hdes provs
    simp only [SportsDataService.get_team_stats, hget, hdes]
  · intro hget
    refine ⟨fun s hf => ?_, fun hf => ?_⟩ <;>
      simp only [SportsDataService.get_team_stats, hget, hf]

/-- A concrete event used to exercise the service reads. -/
def sample_event : Event := ⟨"401", "espn", "SWE vs ITA", "2026-02-11", "nhl", "hockey"⟩

/-- A concrete provider supporting only `nhl` and returning one event. -/
def sample_provider : SportsProvider where
  name := "espn"
  supports_league := fun l => l == "nhl"
  p_get_events := fun _ _ => [sample_event]
  p_get_team_schedule := fun _ _ _ => []
  p_get_team := fun _ _ => none
  p_get_event := fun _ _ => none
  p_get_team_stats := fun _ _ => none

/-- A concrete service with one provider and an empty cache. -/
def sample_service : SportsDataService := ⟨[sample_provider], []⟩

/-- C5 witness: on the concrete service, a cold `get_events` read fetches
from the provider and caches the serialized result with the events TTL. -/
theorem sports_data_reads_correct_witness :
    sample_service.get_events "nhl" "2026-02-11" 0 =
      ([sample_event], { sample_service with
        cache := cache_set sample_service.cache (make_cache_key "events" "nhl" "2026-02-11")
          (CacheVal.vlist [event_to_dict sample_event]) (get_events_cache_ttl "2026-02-11") 0 }) := by
  have h := ((sports_data_reads_correct sample_service "nhl" "2026-02-11" "t" "e" 0 0).1.2 rfl).1
  exact h [sample_event] rfl

/-! ## Team bulk import (`src/teamarr/services/team_import.py`)

`bulk_import_teams` is embedded from source.  A `teams` row stores its
`leagues` JSON array directly as a list (the source round-trips it through
`json.dumps`/`_parse_leagues`); the `team_cache` preload is a list of
`(provider, provider_team_id, sport, league)` rows.  The source's
`existing_full` index is consulted only for membership and its
`existing_sport[key][0]` is the first database row with that sport key, so
the embedding works on the row list directly. -/

structure TeamRow where
  row_id : Nat
  provider : String
  provider_team_id : String
  sport : String
  primary_league : String
  leagues : List String
deriving Repr, DecidableEq

structure ImportTeam where
  team_name : String
  team_abbrev : Option String
  provider : String
  provider_team_id : String
  league : String
  sport : String
  logo_url : Option String
deriving Repr, DecidableEq

structure ImportResult where
  imported : Nat
  updated : Nat
  skipped : Nat
deriving Repr, DecidableEq

/-- One `team_cache` row (provider, provider_team_id, sport, league). -/
structure CacheRow where
  provider : String
  provider_team_id : String
  sport : String
  league : String
deriving Repr, DecidableEq

/-- The `team_cache` leagues preloaded for one `(provider, id, sport)` key. -/
def cache_leagues (cache : List CacheRow) (provider team_id sport : String) : List String :=
  (cache.filter (fun r =>
    r.provider = provider ∧ r.provider_team_id = team_id ∧ r.sport = sport)).map (·.league)

/-- Python's `sorted(set(l))`: deduplicate, then sort ascending. -/
def sort_dedup (l : List String) : List String := l.dedup.insertionSort (· ≤ ·)

/-- `all_leagues` for a soccer import: cached leagues plus the presented
league when missing. -/
def import_all_leagues (cache : List CacheRow) (t : ImportTeam) : List String :=
  let cl := cache_leagues cache t.provider t.provider_team_id t.sport
  if t.league ∈ cl then cl else cl ++ [t.league]

/-- First database row matching the `(provider, provider_team_id, sport)`
sport key — the source's `existing_sport[sport_key][0]`. -/
def first_sport_row (rows : List TeamRow) (provider team_id sport : String) :
    Option TeamRow :=
  rows.find? (fun r =>
    r.provider = provider ∧ r.provider_team_id = team_id ∧ r.sport = sport)

/-- Membership of the `(provider, provider_team_id, sport, primary_league)`
full key — the source's `full_key in existing_full`. -/
def full_key_present (rows : List TeamRow) (provider team_id sport league : String) : Bool :=
  rows.any (fun r =>
    r.provider = provider ∧ r.provider_team_id = team_id ∧ r.sport = sport ∧
      r.primary_league = league)

/-- `UPDATE teams SET leagues = ? WHERE id = ?`. -/
def update_leagues (rows : List TeamRow) (rid : Nat) (new : List String) : List TeamRow :=
  rows.map (fun r => if r.row_id = rid then { r with leagues := new } else r)

/-- Import loop state: database rows, next row id, and the running counts. -/
structure ImportState where
  rows : List TeamRow
  next_id : Nat
  imported : Nat
  updated : Nat
  skipped : Nat
deriving Repr, DecidableEq

/-- One iteration of the `bulk_import_teams` loop over one presented team. -/
def import_step (cache : List CacheRow) (st : ImportState) (t : ImportTeam) : ImportState :=
  if py_lower t.sport = "soccer" then
    let all_leagues := import_all_leagues cache t
    match first_sport_row st.rows t.provider t.provider_team_id t.sport with
    | some row =>
        let new_to_add := all_leagues.filter (fun lg => lg ∉ row.leagues)
        if new_to_add = [] then { st with skipped := st.skipped + 1 }
        else
          { st with
            rows := update_leagues st.rows row.row_id (sort_dedup (row.leagues ++ all_leagues))
            updated := st.updated + 1 }
    | none =>
        { st with
          rows := st.rows ++ [⟨st.next_id, t.provider, t.provider_team_id, t.sport,
            t.league, sort_dedup all_leagues⟩]
          next_id := st.next_id + 1
          imported := st.imported + 1 }
  else
    if full_key_present st.rows t.provider t.provider_team_id t.sport t.league then
      { st with skipped := st.skipped + 1 }
    else
      { st with
        rows := st.rows ++ [⟨st.next_id, t.provider, t.provider_team_id, t.sport,
          t.league, [t.league]⟩]
        next_id := st.next_id + 1
        imported := st.imported + 1 }

/-- `bulk_import_teams(conn, teams)`: fold the import step over the
presented teams, starting from zero counts. -/
def bulk_import_teams (rows : List TeamRow) (next_id : Nat) (cache : List CacheRow)
    (teams : List ImportTeam) : ImportState :=
  teams.foldl (import_step cache) ⟨rows, next_id, 0, 0, 0⟩

theorem mem_sort_dedup {a : String} {l : List String} : a ∈ sort_dedup l ↔ a ∈ l := by
  unfold sort_dedup
  rw [List.mem_insertionSort]
  exact List.mem_dedup

theorem length_update_leagues (rows : List TeamRow) (rid : Nat) (new : List String) :
    (update_leagues rows rid new).length = rows.length := by
  unfold update_leagues
  exact List.length_map rows _

/-- A presented team is already satisfied by the database rows: its soccer
row exists and carries all presented leagues, or its non-soccer full key is
present. -/
def processed_ok (cache : List CacheRow) (rows : List TeamRow) (t : ImportTeam) : Prop :=
  if py_lower t.sport = "soccer" then
    ∃ r, first_sport_row rows t.provider t.provider_team_id t.sport = some r ∧
      ∀ lg ∈ import_all_leagues cache t, lg ∈ r.leagues
  else
    full_key_present rows t.provider t.provider_team_id t.sport t.league = true

/-- Row ids are pairwise distinct and bounded by the next id. -/
def ids_ok (st : ImportState) : Prop :=
  st.rows.Pairwise (fun a b => a.row_id ≠ b.row_id) ∧ ∀ r ∈ st.rows, r.row_id < st.next_id

theorem import_step_soccer_skip {cache : List CacheRow} {st : ImportState} {u : ImportTeam}
    {ru : TeamRow} (hu : py_lower u.sport = "soccer")
    (hfu : first_sport_row st.rows u.provider u.provider_team_id u.sport = some ru)
    (hnew : ∀ lg ∈ import_all_leagues cache u, lg ∈ ru.leagues) :
    import_step cache st u = { st with skipped := st.skipped + 1 } := by
  have hf : (import_all_leagues cache u).filter (fun lg => lg ∉ ru.leagues) = [] :=
    List.filter_eq_nil_iff.mpr (fun a ha => by simpa using hnew a ha)
  simp [import_step, hu, hfu, hf, hnew]
  exact hnew

theorem import_step_soccer_update {cache : List CacheRow} {st : ImportState} {u : ImportTeam}
    {ru : TeamRow} (hu : py_lower u.sport = "soccer")
    (hfu : first_sport_row st.rows u.provider u.provider_team_id u.sport = some ru)
    (hnew : ∃ lg ∈ import_all_leagues cache u, lg ∉ ru.leagues) :
    import_step cache st u =
      { st with
        rows := update_leagues st.rows ru.row_id
          (sort_dedup (ru.leagues ++ import_all_leagues cache u))
        updated := st.updated + 1 } := by
  have hf : (import_all_leagues cache u).filter (fun lg => lg ∉ ru.leagues) ≠ [] := by
    obtain ⟨lg, hlg, hnot⟩ := hnew
    intro hc
    have := List.filter_eq_nil_iff.mp hc lg hlg
    simp only [decide_eq_true_eq] at this
    exact this hnot
  simp [import_step, hu, hfu, hf]
  exact hnew

theorem import_step_soccer_insert {cache : List CacheRow} {st : ImportState} {u : ImportTeam}
    (hu : py_lower u.sport = "soccer")
    (hfu : first_sport_row st.rows u.provider u.provider_team_id u.sport = none) :
    import_step cache st u =
      { st with
        rows := st.rows ++ [⟨st.next_id, u.provider, u.provider_team_id, u.sport,
          u.league, sort_dedup (import_all_leagues cache u)⟩]
        next_id := st.next_id + 1
        imported := st.imported + 1 } := by
  simp [import_step, hu, hfu]

theorem import_step_nonsoccer_skip {cache : List CacheRow} {st : ImportState} {u : ImportTeam}
    (hu : ¬ py_lower u.sport = "soccer")
    (hfk : full_key_present st.rows u.provider u.provider_team_id u.sport u.league = true) :
    import_step cache st u = { st with skipped := st.skipped + 1 } := by
  simp [import_step, hu, hfk]

theorem import_step_nonsoccer_insert {cache : List CacheRow} {st : ImportState}
    {u : ImportTeam} (hu : ¬ py_lower u.sport = "soccer")
    (hfk : full_key_present st.rows u.provider u.provider_team_id u.sport u.league = false) :
    import_step cache st u =
      { st with
        rows := st.rows ++ [⟨st.next_id, u.provider, u.provider_team_id, u.sport,
          u.league, [u.league]⟩]
        next_id := st.next_id + 1
        imported := st.imported + 1 } := by
  simp [import_step, hu, hfk]

theorem sport_pred_update (r : TeamRow) (rid : Nat) (new : List String)
    (provider team_id sport : String) :
    (decide ((if r.row_id = rid then { r with leagues := new } else r).provider = provider ∧
      (if r.row_id = rid then { r with leagues := new } else r).provider_team_id = team_id ∧
      (if r.row_id = rid then { r with leagues := new } else r).sport = sport)) =
    (decide (r.provider = provider ∧ r.provider_team_id = team_id ∧ r.sport = sport)) := by
  by_cases h : r.row_id = rid <;> simp [h]

theorem first_sport_row_update (rows : List TeamRow) (rid : Nat) (new : List String)
    (provider team_id sport : String) :
    first_sport_row (update_leagues rows rid new) provider team_id sport =
      (first_sport_row rows provider team_id sport).map
        (fun r => if r.row_id = rid then { r with leagues := new } else r) := by
  induction rows with
  | nil => rfl
  | cons r rest ih =>
      unfold first_sport_row update_leagues at ih ⊢
      simp only [List.map_cons, List.find?_cons]
      rw [sport_pred_update]
      cases hp : decide (r.provider = provider ∧ r.provider_team_id = team_id ∧
        r.sport = sport) with
      | true => rfl
      | false => exact ih

theorem first_sport_row_append (rows extra : List TeamRow) (provider team_id sport : String) :
    first_sport_row (rows ++ extra) provider team_id sport =
      (first_sport_row rows provider team_id sport).or
        (first_sport_row extra provider team_id sport) := by
  unfold first_sport_row
  exact List.find?_append

theorem full_pred_update (r : TeamRow) (rid : Nat) (new : List String)
    (provider team_id sport league : String) :
    (decide ((if r.row_id = rid then { r with leagues := new } else r).provider = provider ∧
      (if r.row_id = rid then { r with leagues := new } else r).provider_team_id = team_id ∧
      (if r.row_id = rid then { r with leagues := new } else r).sport = sport ∧
      (if r.row_id = rid then { r with leagues := new } else r).primary_league = league)) =
    (decide (r.provider = provider ∧ r.provider_team_id = team_id ∧ r.sport = sport ∧
      r.primary_league = league)) := by
  by_cases h : r.row_id = rid <;> simp [h]

theorem full_key_present_update (rows : List TeamRow) (rid : Nat) (new : List String)
    (provider team_id sport league : String) :
    full_key_present (update_leagues rows rid new) provider team_id sport league =
      full_key_present rows provider team_id sport league := by
  induction rows with
  | nil => rfl
  | cons r rest ih =>
      unfold full_key_present update_leagues at ih ⊢
      simp only [List.map_cons, List.any_cons]
      rw [full_pred_update, ih]

theorem full_key_present_append (rows extra : List TeamRow)
    (provider team_id sport league : String) :
    full_key_present (rows ++ extra) provider team_id sport league =
      (full_key_present rows provider team_id sport league ||
        full_key_present extra provider team_id sport league) := by
  unfold full_key_present
  exact List.any_append

theorem import_step_ids_ok (cache : List CacheRow) (st : ImportState) (u : ImportTeam)
    (h : ids_ok st) : ids_ok (import_step cache st u) := by
  obtain ⟨hpw, hbd⟩ := h
  by_cases hu : py_lower u.sport = "soccer"
  · cases hfu : first_sport_row st.rows u.provider u.provider_team_id u.sport with
    | some ru =>
        by_cases hnew : ∀ lg ∈ import_all_leagues cache u, lg ∈ ru.leagues
        · rw [import_step_soccer_skip hu hfu hnew]
          exact ⟨hpw, hbd⟩
        · push_neg at hnew
          rw [import_step_soccer_update hu hfu hnew]
          constructor
          · unfold update_leagues
            rw [List.pairwise_map]
            refine List.Pairwise.imp ?_ hpw
            intro a b hab
            dsimp only
            split <;> split <;> simpa using hab
          · intro r hr
            unfold update_leagues at hr
            simp only [List.mem_map] at hr
            obtain ⟨r0, hr0, heq⟩ := hr
            have := hbd r0 hr0
            subst heq
            split <;> simpa
    | none =>
        rw [import_step_soccer_insert hu hfu]
        constructor
        · rw [List.pairwise_append]
          refine ⟨hpw, by simp, ?_⟩
          intro a ha b hb
          have := hbd a ha
          simp only [List.mem_singleton] at hb
          subst hb
          simp only
          omega
        · intro r hr
          simp only [List.mem_append, List.mem_singleton] at hr
          rcases hr with hr | hr
          · have := hbd r hr
            simp only
            omega
          · subst hr
            simp only
            omega
  · cases hfk : full_key_present st.rows u.provider u.provider_team_id u.sport u.league with
    | true =>
        rw [import_step_nonsoccer_skip hu hfk]
        exact ⟨hpw, hbd⟩
    | false =>
        rw [import_step_nonsoccer_insert hu hfk]
        constructor
        · rw [List.pairwise_append]
          refine ⟨hpw, by simp, ?_⟩
          intro a ha b hb
          have := hbd a ha
          simp only [List.mem_singleton] at hb
          subst hb
          simp only
          omega
        · intro r hr
          simp only [List.mem_append, List.mem_singleton] at hr
          rcases hr with hr | hr
          · have := hbd r hr
            simp only
            omega
          · subst hr
            simp only
            omega

theorem row_id_ne_symm : Symmetric (fun a b : TeamRow => a.row_id ≠ b.row_id) :=
  fun _ _ h heq => h heq.symm

theorem import_step_preserves_ok (cache : List CacheRow) (st : ImportState)
    (u t : ImportTeam) (hids : ids_ok st) (h : processed_ok cache st.rows t) :
    processed_ok cache (import_step cache st u).rows t := by
  by_cases hu : py_lower u.sport = "soccer"
  · cases hfu : first_sport_row st.rows u.provider u.provider_team_id u.sport with
    | some ru =>
        by_cases hnew : ∀ lg ∈ import_all_leagues cache u, lg ∈ ru.leagues
        · rw [import_step_soccer_skip hu hfu hnew]
          exact h
        · push_neg at hnew
          rw [import_step_soccer_update hu hfu hnew]
          unfold processed_ok at h ⊢
          split at h
          · rename_i hsoc
            rw [if_pos hsoc]
            obtain ⟨r, hr, hsub⟩ := h
            rw [first_sport_row_update, hr]
            refine ⟨_, rfl, ?_⟩
            intro lg hlg
            by_cases hid : r.row_id = ru.row_id
            · have hrm := List.mem_of_find?_eq_some hr
              have hrum := List.mem_of_find?_eq_some hfu
              have hreq : r = ru := by
                by_contra hne
                exact (hids.1.forall row_id_ne_symm hrm hrum hne) hid
              subst hreq
              simp only [if_pos hid]
              exact mem_sort_dedup.mpr (List.mem_append_left _ (hsub lg hlg))
            · simp only [hid, if_neg, if_false]
              exact hsub lg hlg
          · rename_i hsoc
            rw [if_neg hsoc]
            rw [full_key_present_update]
            exact h
    | none =>
        rw [import_step_soccer_insert hu hfu]
        unfold processed_ok at h ⊢
        split at h
        · rename_i hsoc
          rw [if_pos hsoc]
          obtain ⟨r, hr, hsub⟩ := h
          rw [first_sport_row_append, hr]
          exact ⟨r, rfl, hsub⟩
        · rename_i hsoc
          rw [if_neg hsoc]
          rw [full_key_present_append, h]
          rfl
  · cases hfk : full_key_present st.rows u.provider u.provider_team_id u.sport u.league with
    | true =>
        rw [import_step_nonsoccer_skip hu hfk]
        exact h
    | false =>
        rw [import_step_nonsoccer_insert hu hfk]
        unfold processed_ok at h ⊢
        split at h
        · rename_i hsoc
          rw [if_pos hsoc]
          obtain ⟨r, hr, hsub⟩ := h
          rw [first_sport_row_append, hr]
          exact ⟨r, rfl, hsub⟩
        · rename_i hsoc
          rw [if_neg hsoc]
          rw [full_key_present_append, h]
          rfl

theorem import_step_establishes_ok (cache : List CacheRow) (st : ImportState)
    (t : ImportTeam) : processed_ok cache (import_step cache st t).rows t := by
  by_cases ht : py_lower t.sport = "soccer"
  · cases hft : first_sport_row st.rows t.provider t.provider_team_id t.sport with
    | some rt =>
        by_cases hnew : ∀ lg ∈ import_all_leagues cache t, lg ∈ rt.leagues
        · rw [import_step_soccer_skip ht hft hnew]
          unfold processed_ok
          rw [if_pos ht]
          exact ⟨rt, hft, hnew⟩
        · push_neg at hnew
          rw [import_step_soccer_update ht hft hnew]
          unfold processed_ok
          rw [if_pos ht]
          simp only
          rw [first_sport_row_update, hft]
          refine ⟨_, rfl, ?_⟩
          intro lg hlg
          simp only [if_pos rfl]
          exact mem_sort_dedup.mpr (List.mem_append_right _ hlg)
    | none =>
        rw [import_step_soccer_insert ht hft]
        unfold processed_ok
        rw [if_pos ht]
        simp only
        rw [first_sport_row_append, hft]
        refine ⟨⟨st.next_id, t.provider, t.provider_team_id, t.sport, t.league,
          sort_dedup (import_all_leagues cache t)⟩, ?_, ?_⟩
        · rw [Option.none_or]
          unfold first_sport_row
          simp [List.find?_cons]
        · intro lg hlg
          exact mem_sort_dedup.mpr hlg
  · cases hfk : full_key_present st.rows t.provider t.provider_team_id t.sport t.league with
    | true =>
        rw [import_step_nonsoccer_skip ht hfk]
        unfold processed_ok
        rw [if_neg ht]
        exact hfk
    | false =>
        rw [import_step_nonsoccer_insert ht hfk]
        unfold processed_ok
        rw [if_neg ht]
        simp only
        rw [full_key_present_append]
        have : full_key_present [⟨st.next_id, t.provider, t.provider_team_id, t.sport,
            t.league, [t.league]⟩] t.provider t.provider_team_id t.sport t.league = true := by
          unfold full_key_present
          simp
        rw [this]
        simp

theorem import_step_skip_of_ok (cache : List CacheRow) (st : ImportState) (t : ImportTeam)
    (h : processed_ok cache st.rows t) :
    import_step cache st t = { st with skipped := st.skipped + 1 } := by
  unfold processed_ok at h
  by_cases ht : py_lower t.sport = "soccer"
  · rw [if_pos ht] at h
    obtain ⟨r, hr, hsub⟩ := h
    exact import_step_soccer_skip ht hr hsub
  · rw [if_neg ht] at h
    exact import_step_nonsoccer_skip ht h

theorem import_fold_ids_ok (cache : List CacheRow) (teams : List ImportTeam)
    (st : ImportState) (h : ids_ok st) :
    ids_ok (teams.foldl (import_step cache) st) := by
  induction teams generalizing st with
  | nil => exact h
  | cons u rest ih => exact ih _ (import_step_ids_ok cache st u h)

theorem import_fold_preserves_ok (cache : List CacheRow) (teams : List ImportTeam)
    (st : ImportState) (t : ImportTeam) (hids : ids_ok st)
    (h : processed_ok cache st.rows t) :
    processed_ok cache (teams.foldl (import_step cache) st).rows t := by
  induction teams generalizing st with
  | nil => exact h
  | cons u rest ih =>
      exact ih _ (import_step_ids_ok cache st u hids)
        (import_step_preserves_ok cache st u t hids h)

theorem import_fold_establishes_ok (cache : List CacheRow) (teams : List ImportTeam)
    (st : ImportState) (hids : ids_ok st) :
    ∀ t ∈ teams, processed_ok cache (teams.foldl (import_step cache) st).rows t := by
  induction teams generalizing st with
  | nil => intro t ht; exact absurd ht (List.not_mem_nil t)
  | cons u rest ih =>
      intro t ht
      rcases List.mem_cons.mp ht with rfl | hmem
      · exact import_fold_preserves_ok cache rest _ t
          (import_step_ids_ok cache st t hids)
          (import_step_establishes_ok cache st t)
      · exact ih _ (import_step_ids_ok cache st u hids) t hmem

theorem import_fold_all_skipped (cache : List CacheRow) (teams : List ImportTeam)
    (st : ImportState) (h : ∀ t ∈ teams, processed_ok cache st.rows t) :
    teams.foldl (import_step cache) st = { st with skipped := st.skipped + teams.length } := by
  induction teams generalizing st with
  | nil => simp
  | cons u rest ih =>
      have hstep := import_step_skip_of_ok cache st u (h u (List.mem_cons_self u rest))
      show List.foldl (import_step cache) (import_step cache st u) rest = _
      rw [hstep]
      rw [ih { st with skipped := st.skipped + 1 }
        (fun t ht => h t (List.mem_cons_of_mem u ht))]
      simp only [List.length_cons]
      congr 1
      omega

/-- C8: re-running `bulk_import_teams` on the state the first run produced,
with the same presented teams and team cache, changes nothing and reports
`imported=0, updated=0, skipped=N`; and — the soccer exception — a soccer
team presented with a league missing from its stored `leagues` array gets
that league appended (one update, no new row). -/
theorem bulk_import_idempotent (rows : List TeamRow) (next_id : Nat)
    (cache : List CacheRow) (teams : List ImportTeam)
    (hpw : rows.Pairwise (fun a b => a.row_id ≠ b.row_id))
    (hbd : ∀ r ∈ rows, r.row_id < next_id) :
    (bulk_import_teams (bulk_import_teams rows next_id cache teams).rows
        (bulk_import_teams rows next_id cache teams).next_id cache teams =
      ⟨(bulk_import_teams rows next_id cache teams).rows,
        (bulk_import_teams rows next_id cache teams).next_id, 0, 0, teams.length⟩) ∧
    (∀ (t : ImportTeam) (r : TeamRow) (lg : String), py_lower t.sport = "soccer" →
      first_sport_row rows t.provider t.provider_team_id t.sport = some r →
      lg ∈ import_all_leagues cache t → lg ∉ r.leagues →
      bulk_import_teams rows next_id cache [t] =
        ⟨update_leagues rows r.row_id (sort_dedup (r.leagues ++ import_all_leagues cache t)),
          next_id, 0, 1, 0⟩ ∧
      (bulk_import_teams rows next_id cache [t]).rows.length = rows.length) := by
  constructor
  · have hids : ids_ok ⟨rows, next_id, 0, 0, 0⟩ := ⟨hpw, hbd⟩
    have hall := import_fold_establishes_ok cache teams ⟨rows, next_id, 0, 0, 0⟩ hids
    have hskip := import_fold_all_skipped cache teams
      ⟨(bulk_import_teams rows next_id cache teams).rows,
        (bulk_import_teams rows next_id cache teams).next_id, 0, 0, 0⟩
      (fun t ht => hall t ht)
    unfold bulk_import_teams at hskip ⊢
    rw [hskip]
    simp
  · intro t r lg ht hfr hmem hnot
    have hstep := @import_step_soccer_update cache ⟨rows, next_id, 0, 0, 0⟩ t r ht hfr
      ⟨lg, hmem, hnot⟩
    constructor
    · show [t].foldl (import_step cache) ⟨rows, next_id, 0, 0, 0⟩ = _
      rw [List.foldl_cons, hstep]
      rfl
    · show ([t].foldl (import_step cache) ⟨rows, next_id, 0, 0, 0⟩).rows.length = _
      rw [List.foldl_cons, hstep]
      exact length_update_leagues rows r.row_id _

/-- A concrete non-soccer team for exercising the import. -/
def sample_import_team : ImportTeam :=
  ⟨"Detroit Pistons", some "DET", "espn", "8", "nba", "basketball", none⟩

/-- C8 witness: importing one concrete team twice — the second run reports
`imported=0, updated=0, skipped=1` and leaves the database unchanged. -/
theorem bulk_import_idempotent_witness :
    bulk_import_teams (bulk_import_teams [] 0 [] [sample_import_team]).rows
      (bulk_import_teams [] 0 [] [sample_import_team]).next_id [] [sample_import_team] =
      ⟨(bulk_import_teams [] 0 [] [sample_import_team]).rows,
        (bulk_import_teams [] 0 [] [sample_import_team]).next_id, 0, 0, 1⟩ :=
  (bulk_import_idempotent [] 0 [] [sample_import_team] (by simp) (by simp)).1

/-! ## Conditional description selection (`src/epg/template_engine.py`)

Embeds `TemplateEngine.select_description` and
`TemplateEngine._evaluate_condition` together with the slices of the context
dictionary those functions read.  Python exceptions (e.g. `int('')` on a
malformed streak string) are modelled with `Except Unit`; `random.choice`
is modelled by an oracle index `k` picking element `k % len` of the
candidate list. -/

/-- A `condition_value`: the JSON value attached to a description option
(either a number or a string). -/
inductive CondValue
  | vint : Int → CondValue
  | vstr : String → CondValue
deriving Repr, DecidableEq

/-- Python truthiness of a condition value (`if condition_value`). -/
def cond_truthy : CondValue → Bool
  | CondValue.vint n => n ≠ 0
  | CondValue.vstr s => s ≠ ""

/-- Python `int(str)`: optional surrounding spaces, optional sign, digits. -/
def py_parse_int (s : String) : Option Int :=
  let cs := (s.data.dropWhile (· = ' ')).reverse.dropWhile (· = ' ') |>.reverse
  let core : List Char → Option Nat := fun ds =>
    if ds ≠ [] ∧ ds.all Char.isDigit then
      some (ds.foldl (fun acc c => acc * 10 + (c.toNat - 48)) 0)
    else none
  match cs with
  | '-' :: rest => (core rest).map (fun n => -(n : Int))
  | '+' :: rest => (core rest).map (fun n => (n : Int))
  | _ => (core cs).map (fun n => (n : Int))

/-- Python `int(condition_value)`: numbers pass through, strings parse or
raise `ValueError`. -/
def py_int_of_cond : CondValue → Except Unit Int
  | CondValue.vint n => Except.ok n
  | CondValue.vstr s =>
      match py_parse_int s with
      | some n => Except.ok n
      | none => Except.error ()

/-- Python `str.capitalize()`: first character upper-cased, rest lowered. -/
def py_capitalize (s : String) : String :=
  match s.data with
  | [] => ""
  | c :: rest => ⟨c.toUpper :: rest.map Char.toLower⟩

/-- `' '` replaced by `'-'` (the slug fallback in `_determine_home_away`). -/
def py_space_to_dash (s : String) : String :=
  ⟨s.data.map (fun c => if c = ' ' then '-' else c)⟩

/-- Substring test, Python's `a in b`. -/
def list_contains_sub (hay sub : List Char) : Bool :=
  if sub.isPrefixOf hay then true
  else
    match hay with
    | [] => false
    | _ :: t => list_contains_sub t sub

/-- `sub in hay` on strings (`''` is contained in everything). -/
def py_in (sub hay : String) : Bool := list_contains_sub hay.data sub.data

/-- A team dict inside a game (`home_team`/`away_team`). -/
structure TeamRef where
  id : String
  name : String
  displayName : String
deriving Repr, DecidableEq

/-- The empty team dict (`{}`): every `.get` yields the empty default. -/
def TeamRef.empty : TeamRef := ⟨"", "", ""⟩

/-- A broadcast entry in one of the three ESPN formats handled by
`_normalize_broadcast`: a bare string, a scoreboard dict with a string
`market`, or a schedule dict whose `market` is a dict (possibly absent). -/
inductive Broadcast
  | str : String → Broadcast
  | scoreboard : String → List String → Broadcast
  | schedule : Option String → Option String → Option String → Broadcast
  | unknown : Broadcast
deriving Repr, DecidableEq

/-- `_normalize_broadcast(b).get('market', {}).get('type', '')`: string
broadcasts are assumed national; scoreboard markets are capitalized;
schedule dicts pass through; unknown formats normalize to `{}`. -/
def normalized_market_type : Broadcast → String
  | Broadcast.str _ => "National"
  | Broadcast.scoreboard m _ => py_capitalize m
  | Broadcast.schedule mt _ _ => mt.getD ""
  | Broadcast.unknown => ""

/-- One odds entry (contents irrelevant to `has_odds`). -/
structure OddsEntry where
  provider : String
deriving Repr, DecidableEq

/-- One competition dict (`game['competitions'][0]`). -/
structure Competition where
  odds : List OddsEntry
  broadcasts : List Broadcast
deriving Repr, DecidableEq

/-- The empty competition dict (`{}`). -/
def Competition.empty : Competition := ⟨[], []⟩

/-- The slice of a game dict read by `_evaluate_condition`. -/
structure CondGame where
  home_team : Option TeamRef
  away_team : Option TeamRef
  competitions : Option (List Competition)
  season_type : Option Int
deriving Repr, DecidableEq

/-- The empty game dict (`context.get('game', {})` when absent). -/
def CondGame.empty : CondGame := ⟨none, none, none, none⟩

/-- `game.get('competitions', [{}])[0]`: a missing key defaults to `[{}]`
whose head is the empty dict; a present but empty list raises `IndexError`. -/
def first_competition (g : CondGame) : Except Unit Competition :=
  match g.competitions with
  | none => Except.ok Competition.empty
  | some [] => Except.error ()
  | some (c :: _) => Except.ok c

/-- The slice of a team-stats dict read by `_evaluate_condition`. -/
structure CondStats where
  streak_count : Int
  rank : Option Int
  conference_abbrev : String
  conference_name : String
deriving Repr, DecidableEq

/-- The streaks dict (`home_streak`/`away_streak` strings such as `W3`). -/
structure CondStreaks where
  home_streak : String
  away_streak : String
deriving Repr, DecidableEq

/-- The `team_config` slice read by `_evaluate_condition`. -/
structure CondTeamConfig where
  espn_team_id : String
  league : String
deriving Repr, DecidableEq

/-- The context dictionary passed to `select_description`. -/
structure CondContext where
  game : Option CondGame
  team_stats : CondStats
  opponent_stats : CondStats
  team_config : CondTeamConfig
  h2h_season_series_games : Nat
  streaks : CondStreaks
deriving Repr, DecidableEq

/-- `_determine_home_away(game, our_team_id)` (name fallback on): id match
first, then lowercased-dashed team name; returns `(is_home, opponent)`. -/
def determine_home_away (g : CondGame) (our_team_id : String) : Bool × TeamRef :=
  let home := g.home_team.getD TeamRef.empty
  let away := g.away_team.getD TeamRef.empty
  let is_home_id := home.id = our_team_id
  let is_home :=
    if is_home_id then true
    else
      let home_name := if home.name ≠ "" then home.name else home.displayName
      py_space_to_dash (py_lower home_name) = our_team_id
  (is_home, if is_home then away else home)

/-- The predicate names `_evaluate_condition` knows. -/
def known_conditions : List String :=
  ["win_streak", "loss_streak", "is_top_ten_matchup", "is_ranked_opponent",
   "is_rematch", "is_home", "is_away", "is_conference_game", "has_odds",
   "home_win_streak", "home_loss_streak", "away_win_streak", "away_loss_streak",
   "is_playoff", "is_preseason", "is_national_broadcast", "opponent_name_contains"]

/-- Evaluate a `X >= int(cv) if cv else False` tail shared by the streak
conditions. -/
def streak_compare (x : Int) (ge : Bool) (cv : Option CondValue) : Except Unit Bool :=
  match cv with
  | none => Except.ok false
  | some v =>
      if cond_truthy v then do
        let n ← py_int_of_cond v
        Except.ok (if ge then x ≥ n else x ≤ -n)
      else Except.ok false

/-- Parse a `W3`/`L2` style streak string: require the given first letter,
then `int(s[1:])` (raising on a malformed tail), then compare per `cv`. -/
def side_streak_compare (s : String) (letter : Char) (cv : Option CondValue) :
    Except Unit Bool :=
  if s = "" ∨ ¬ (s.data.head? = some letter) then Except.ok false
  else
    match py_parse_int (String.mk (s.data.drop 1)) with
    | none => Except.error ()
    | some n =>
        match cv with
        | none => Except.ok false
        | some v =>
            if cond_truthy v then do
              let m ← py_int_of_cond v
              Except.ok (n ≥ m)
            else Except.ok false

/-- `TemplateEngine._evaluate_condition`. -/
def evaluate_condition (ctx : CondContext) (condition_type : String)
    (condition_value : Option CondValue) : Except Unit Bool :=
  let game := ctx.game.getD CondGame.empty
  let our_team_id := ctx.team_config.espn_team_id
  let ha := determine_home_away game our_team_id
  let is_home := ha.1
  let opponent := ha.2
  if condition_type = "win_streak" then
    streak_compare ctx.team_stats.streak_count true condition_value
  else if condition_type = "loss_streak" then
    streak_compare ctx.team_stats.streak_count false condition_value
  else if condition_type = "is_top_ten_matchup" then
    Except.ok (ctx.team_stats.rank.getD 99 ≤ 10 ∧ ctx.opponent_stats.rank.getD 99 ≤ 10)
  else if condition_type = "is_ranked_opponent" then
    Except.ok (ctx.opponent_stats.rank.getD 99 ≤ 25)
  else if condition_type = "is_rematch" then
    Except.ok (ctx.h2h_season_series_games > 0)
  else if condition_type = "is_home" then
    Except.ok is_home
  else if condition_type = "is_away" then
    Except.ok (!is_home)
  else if condition_type = "is_conference_game" then
    let league := py_lower ctx.team_config.league
    if ¬ py_in "college" league then Except.ok false
    else
      let our_conf :=
        if ctx.team_stats.conference_abbrev ≠ "" then ctx.team_stats.conference_abbrev
        else ctx.team_stats.conference_name
      let opp_conf :=
        if ctx.opponent_stats.conference_abbrev ≠ "" then ctx.opponent_stats.conference_abbrev
        else ctx.opponent_stats.conference_name
      if our_conf = "" ∨ opp_conf = "" then Except.ok false
      else Except.ok (py_lower our_conf = py_lower opp_conf)
  else if condition_type = "has_odds" then do
    let comp ← first_competition game
    Except.ok (comp.odds ≠ [])
  else if condition_type = "home_win_streak" then
    side_streak_compare ctx.streaks.home_streak 'W' condition_value
  else if condition_type = "home_loss_streak" then
    side_streak_compare ctx.streaks.home_streak 'L' condition_value
  else if condition_type = "away_win_streak" then
    side_streak_compare ctx.streaks.away_streak 'W' condition_value
  else if condition_type = "away_loss_streak" then
    side_streak_compare ctx.streaks.away_streak 'L' condition_value
  else if condition_type = "is_playoff" then
    Except.ok (game.season_type.getD 0 = 3)
  else if condition_type = "is_preseason" then
    Except.ok (game.season_type.getD 0 = 1)
  else if condition_type = "is_national_broadcast" then do
    let comp ← first_competition game
    Except.ok (comp.broadcasts.any
      (fun b => py_lower (normalized_market_type b) = "national"))
  else if condition_type = "opponent_name_contains" then
    match condition_value with
    | none => Except.ok false
    | some (CondValue.vint n) =>
        if n = 0 then Except.ok false else Except.error ()
    | some (CondValue.vstr s) =>
        if s = "" then Except.ok false
        else
          let opponent_name :=
            if opponent.displayName ≠ "" then opponent.displayName else opponent.name
          Except.ok (py_in (py_lower s) (py_lower opponent_name))
  else Except.ok false

/-- One description option: `template`, optional `priority` (default 50),
`condition` name (`''` when absent) and its value. -/
structure DescOption where
  template : String
  priority : Option Int
  condition : String
  condition_value : Option CondValue
deriving Repr, DecidableEq

/-- The matching pass of `select_description`: walk the options in order;
skip empty templates; priority-100 options always match; other options
match when their (non-empty) condition evaluates true.  Produces the
`(priority, template)` pairs that populate `priority_groups`, propagating
any condition-evaluation exception. -/
def matched_pairs (ctx : CondContext) : List DescOption → Except Unit (List (Int × String))
  | [] => Except.ok []
  | o :: rest =>
      if o.template = "" then matched_pairs ctx rest
      else if o.priority.getD 50 = 100 then do
        let r ← matched_pairs ctx rest
        Except.ok ((100, o.template) :: r)
      else if o.condition = "" then matched_pairs ctx rest
      else do
        let b ← evaluate_condition ctx o.condition o.condition_value
        let r ← matched_pairs ctx rest
        if b then Except.ok ((o.priority.getD 50, o.template) :: r) else Except.ok r

/-- The smallest priority among the matched pairs (`min(priority_groups)`). -/
def min_priority (pairs : List (Int × String)) : Option Int :=
  pairs.foldl (fun acc p =>
    match acc with
    | none => some p.1
    | some m => some (min m p.1)) none

/-- The templates bucketed at one priority, in option order. -/
def priority_bucket (pairs : List (Int × String)) (m : Int) : List String :=
  (pairs.filter (fun p => p.1 = m)).map (·.2)

/-- `TemplateEngine.select_description`: empty options give `''`; otherwise
group the matches by priority, take the group of smallest priority and
return its element `k % len` (`random.choice` modelled by the oracle
index `k`); no match gives `''`. -/
def select_description (ctx : CondContext) (options : List DescOption) (k : Nat) :
    Except Unit String :=
  if options = [] then Except.ok ""
  else do
    let pairs ← matched_pairs ctx options
    match min_priority pairs with
    | none => Except.ok ""
    | some m =>
        let bucket := priority_bucket pairs m
        Except.ok (bucket.getD (k % bucket.length) "")

theorem min_priority_go (pairs : List (Int × String)) (m : Int) :
    pairs.foldl (fun acc p =>
      match acc with
      | none => some p.1
      | some m => some (min m p.1)) (some m) =
    some ((pairs.map (·.1)).foldl min m) := by
  induction pairs generalizing m with
  | nil => rfl
  | cons p rest ih => exact ih (min m p.1)

theorem min_priority_cons (p : Int × String) (rest : List (Int × String)) :
    min_priority (p :: rest) = some ((rest.map (·.1)).foldl min p.1) := by
  unfold min_priority
  rw [List.foldl_cons]
  exact min_priority_go rest p.1

theorem min_priority_none_iff (pairs : List (Int × String)) :
    min_priority pairs = none ↔ pairs = [] := by
  cases pairs with
  | nil => simp [min_priority]
  | cons p rest =>
      rw [min_priority_cons]
      simp

theorem foldl_min_le_init (l : List Int) (m : Int) : l.foldl min m ≤ m := by
  induction l generalizing m with
  | nil => exact le_refl m
  | cons a rest ih => exact le_trans (ih (min m a)) (min_le_left m a)

theorem foldl_min_le_mem (l : List Int) : ∀ (m a : Int), a ∈ l → l.foldl min m ≤ a := by
  induction l with
  | nil =>
      intro m a ha
      exact absurd ha (List.not_mem_nil a)
  | cons b rest ih =>
      intro m a ha
      rcases List.mem_cons.mp ha with rfl | hmem
      · exact le_trans (foldl_min_le_init rest (min m a)) (min_le_right m a)
      · exact ih (min m b) a hmem

theorem foldl_min_mem (l : List Int) : ∀ m : Int, l.foldl min m ∈ m :: l := by
  induction l with
  | nil =>
      intro m
      exact List.mem_singleton.mpr rfl
  | cons a rest ih =>
      intro m
      rw [List.foldl_cons]
      rcases List.mem_cons.mp (ih (min m a)) with heq | hmem
      · rcases min_choice m a with hc | hc
        · rw [heq, hc]
          exact List.mem_cons_self _ _
        · rw [heq, hc]
          exact List.mem_cons_of_mem _ (List.mem_cons_self _ _)
      · exact List.mem_cons_of_mem _ (List.mem_cons_of_mem _ hmem)

theorem min_priority_is_min (pairs : List (Int × String)) (m : Int)
    (h : min_priority pairs = some m) :
    (∀ q ∈ pairs, m ≤ q.1) ∧ m ∈ pairs.map (·.1) := by
  cases pairs with
  | nil => simp [min_priority] at h
  | cons p rest =>
      rw [min_priority_cons] at h
      have hm : m = (rest.map (·.1)).foldl min p.1 := by
        injection h with h'
        exact h'.symm
      constructor
      · intro q hq
        rcases List.mem_cons.mp hq with rfl | hmem
        · rw [hm]
          exact foldl_min_le_init _ _
        · rw [hm]
          exact foldl_min_le_mem _ _ _ (List.mem_map_of_mem (·.1) hmem)
      · rw [hm]
        have hmm := foldl_min_mem (rest.map (·.1)) p.1
        simpa using hmm

theorem matched_pairs_mem (ctx : CondContext) (options : List DescOption)
    (pairs : List (Int × String)) (hp : matched_pairs ctx options = Except.ok pairs)
    (prio : Int) (tmpl : String) :
    ((prio, tmpl) ∈ pairs ↔
      ∃ o ∈ options, o.template = tmpl ∧ o.template ≠ "" ∧ o.priority.getD 50 = prio ∧
        (prio = 100 ∨ (o.condition ≠ "" ∧
          evaluate_condition ctx o.condition o.condition_value = Except.ok true))) := by
  induction options generalizing pairs with
  | nil =>
      simp only [matched_pairs, Except.ok.injEq] at hp
      subst hp
      simp
  | cons o rest ih =>
      unfold matched_pairs at hp
      by_cases ht : o.template = ""
      · rw [if_pos ht] at hp
        rw [ih pairs hp]
        constructor
        · rintro ⟨o', ho', rest'⟩
          exact ⟨o', List.mem_cons_of_mem o ho', rest'⟩
        · rintro ⟨o', ho', h1, h2, h3⟩
          rcases List.mem_cons.mp ho' with rfl | hmem
          · exact absurd ht h2
          · exact ⟨o', hmem, h1, h2, h3⟩
      · rw [if_neg ht] at hp
        by_cases h100 : o.priority.getD 50 = 100
        · rw [if_pos h100] at hp
          cases hrest : matched_pairs ctx rest with
          | error e =>
              rw [hrest] at hp
              exact Except.noConfusion hp
          | ok r =>
              rw [hrest] at hp
              have hp' : (100, o.template) :: r = pairs := by
                injection hp
              subst hp'
              rw [List.mem_cons]
              constructor
              · rintro (heq | hmem)
                · have h1 : prio = 100 := (Prod.ext_iff.mp heq).1
                  have h2 : tmpl = o.template := (Prod.ext_iff.mp heq).2
                  exact ⟨o, List.mem_cons_self o rest, h2.symm, ht, by rw [h100, h1],
                    Or.inl h1⟩
                · obtain ⟨o', ho', h1, h2, h3, h4⟩ := (ih r hrest).mp hmem
                  exact ⟨o', List.mem_cons_of_mem o ho', h1, h2, h3, h4⟩
              · rintro ⟨o', ho', h1, h2, h3, h4⟩
                rcases List.mem_cons.mp ho' with rfl | hmem
                · left
                  rw [← h3, h100, ← h1]
                · right
                  exact (ih r hrest).mpr ⟨o', hmem, h1, h2, h3, h4⟩
        · rw [if_neg h100] at hp
          by_cases hc : o.condition = ""
          · rw [if_pos hc] at hp
            rw [ih pairs hp]
            constructor
            · rintro ⟨o', ho', rest'⟩
              exact ⟨o', List.mem_cons_of_mem o ho', rest'⟩
            · rintro ⟨o', ho', h1, h2, h3, h4⟩
              rcases List.mem_cons.mp ho' with rfl | hmem
              · rcases h4 with h4 | h4
                · rw [← h3] at h4
                  exact absurd h4 h100
                · exact absurd hc h4.1
              · exact ⟨o', hmem, h1, h2, h3, h4⟩
          · rw [if_neg hc] at hp
            cases hev : evaluate_condition ctx o.condition o.condition_value with
            | error e =>
                rw [hev] at hp
                exact Except.noConfusion hp
            | ok b =>
                rw [hev] at hp
                cases hrest : matched_pairs ctx rest with
                | error e =>
                    rw [hrest] at hp
                    cases b with
                    | true => exact Except.noConfusion hp
                    | false => exact Except.noConfusion hp
                | ok r =>
                    rw [hrest] at hp
                    cases b with
                    | true =>
                        rw [show ((do
                          let b ← (Except.ok true : Except Unit Bool)
                          let r' ← (Except.ok r : Except Unit (List (Int × String)))
                          if b = true then
                            Except.ok ((o.priority.getD 50, o.template) :: r')
                          else Except.ok r') : Except Unit (List (Int × String))) =
                          Except.ok ((o.priority.getD 50, o.template) :: r) from rfl] at hp
                        have hp' : (o.priority.getD 50, o.template) :: r = pairs := by
                          injection hp
                        subst hp'
                        rw [List.mem_cons]
                        constructor
                        · rintro (heq | hmem)
                          · have h1 : prio = o.priority.getD 50 := (Prod.ext_iff.mp heq).1
                            have h2 : tmpl = o.template := (Prod.ext_iff.mp heq).2
                            exact ⟨o, List.mem_cons_self o rest, h2.symm, ht, h1.symm,
                              Or.inr ⟨hc, hev⟩⟩
                          · obtain ⟨o', ho', hh⟩ := (ih r hrest).mp hmem
                            exact ⟨o', List.mem_cons_of_mem o ho', hh⟩
                        · rintro ⟨o', ho', h1, h2, h3, h4⟩
                          rcases List.mem_cons.mp ho' with rfl | hmem
                          · left
                            rw [← h1, ← h3]
                          · right
                            exact (ih r hrest).mpr ⟨o', hmem, h1, h2, h3, h4⟩
                    | false =>
                        rw [show ((do
                          let b ← (Except.ok false : Except Unit Bool)
                          let r' ← (Except.ok r : Except Unit (List (Int × String)))
                          if b = true then
                            Except.ok ((o.priority.getD 50, o.template) :: r')
                          else Except.ok r') : Except Unit (List (Int × String))) =
                          Except.ok r from rfl] at hp
                        have hp' : r = pairs := by
                          injection hp
                        subst hp'
                        rw [ih r hrest]
                        constructor
                        · rintro ⟨o', ho', hh⟩
                          exact ⟨o', List.mem_cons_of_mem o ho', hh⟩
                        · rintro ⟨o', ho', h1, h2, h3, h4⟩
                          rcases List.mem_cons.mp ho' with rfl | hmem
                          · rcases h4 with h4 | h4
                            · rw [← h3] at h4
                              exact absurd h4 h100
                            · rw [hev] at h4
                              exact absurd h4.2 (by simp)
                          · exact ⟨o', hmem, h1, h2, h3, h4⟩

/-- C1: `select_description` evaluates each option's condition, collects the
matches (priority-100 options match unconditionally), buckets them by
priority, picks the smallest priority present, and returns element
`k % len` of that bucket — every oracle index selects a bucket member and
every bucket member is selected by some index, modelling the uniform random
choice; an unknown predicate never matches; no match yields `''`. -/
theorem select_description_correct (ctx : CondContext) (options : List DescOption)
    (k : Nat) (pairs : List (Int × String))
    (hp : matched_pairs ctx options = Except.ok pairs) :
    (∀ prio tmpl, (prio, tmpl) ∈ pairs ↔
      ∃ o ∈ options, o.template = tmpl ∧ o.template ≠ "" ∧ o.priority.getD 50 = prio ∧
        (prio = 100 ∨ (o.condition ≠ "" ∧
          evaluate_condition ctx o.condition o.condition_value = Except.ok true))) ∧
    (pairs = [] → select_description ctx options k = Except.ok "") ∧
    (∀ m, min_priority pairs = some m →
      (∀ q ∈ pairs, m ≤ q.1) ∧ m ∈ pairs.map (·.1) ∧
      select_description ctx options k =
        Except.ok ((priority_bucket pairs m).getD (k % (priority_bucket pairs m).length) "") ∧
      (priority_bucket pairs m).getD (k % (priority_bucket pairs m).length) "" ∈
        priority_bucket pairs m ∧
      (∀ i, i < (priority_bucket pairs m).length →
        select_description ctx options i =
          Except.ok ((priority_bucket pairs m).getD i ""))) ∧
    (∀ name cv, name ∉ known_conditions →
      evaluate_condition ctx name cv = Except.ok false) := by
  refine ⟨matched_pairs_mem ctx options pairs hp, ?_, ?_, ?_⟩
  · intro hnil
    subst hnil
    unfold select_description
    by_cases ho : options = []
    · rw [if_pos ho]
    · rw [if_neg ho, hp]
      rfl
  · intro m hm
    have ho : options ≠ [] := by
      intro h
      subst h
      have : pairs = [] := by
        simpa [matched_pairs] using hp.symm
      subst this
      simp [min_priority] at hm
    obtain ⟨hle, hmem⟩ := min_priority_is_min pairs m hm
    have hbne : priority_bucket pairs m ≠ [] := by
      obtain ⟨q, hq, hq1⟩ := List.mem_map.mp hmem
      intro hb
      have : q ∈ pairs.filter (fun p => p.1 = m) :=
        List.mem_filter.mpr ⟨hq, by simpa using hq1⟩
      have : q.2 ∈ priority_bucket pairs m := List.mem_map_of_mem (·.2) this
      rw [hb] at this
      exact absurd this (List.not_mem_nil q.2)
    have hlen : 0 < (priority_bucket pairs m).length := List.length_pos.mpr hbne
    have hsel : ∀ j, select_description ctx options j =
        Except.ok ((priority_bucket pairs m).getD (j % (priority_bucket pairs m).length) "") := by
      intro j
      unfold select_description
      rw [if_neg ho, hp]
      show (match min_priority pairs with
        | none => Except.ok ""
        | some m =>
            Except.ok ((priority_bucket pairs m).getD
              (j % (priority_bucket pairs m).length) "")) = _
      rw [hm]
    refine ⟨hle, hmem, hsel k, ?_, ?_⟩
    · have hk : k % (priority_bucket pairs m).length < (priority_bucket pairs m).length :=
        Nat.mod_lt _ hlen
      rw [List.getD_eq_getElem _ _ hk]
      exact List.getElem_mem hk
    · intro i hi
      rw [hsel i, Nat.mod_eq_of_lt hi]
  · intro name cv hname
    simp only [known_conditions, List.mem_cons, not_or, List.not_mem_nil] at hname
    obtain ⟨h1, h2, h3, h4, h5, h6, h7, h8, h9, h10, h11, h12, h13, h14, h15, h16, h17, -⟩ :=
      hname
    unfold evaluate_condition
    rw [if_neg h1, if_neg h2, if_neg h3, if_neg h4, if_neg h5, if_neg h6, if_neg h7,
      if_neg h8, if_neg h9, if_neg h10, if_neg h11, if_neg h12, if_neg h13, if_neg h14,
      if_neg h15, if_neg h16, if_neg h17]

/-- A concrete context: the configured team is the home team of the current
game and sits on a four-game win streak. -/
def sample_cond_context : CondContext :=
  { game := some
      { home_team := some ⟨"5", "Red Wings", "Detroit Red Wings"⟩
        away_team := some ⟨"6", "Blackhawks", "Chicago Blackhawks"⟩
        competitions := none
        season_type := none }
    team_stats := ⟨4, none, "", ""⟩
    opponent_stats := ⟨0, none, "", ""⟩
    team_config := ⟨"5", "nhl"⟩
    h2h_season_series_games := 0
    streaks := ⟨"", ""⟩ }

/-- Two options: a priority-10 conditional on `is_home` and a priority-100
fallback. -/
def sample_options : List DescOption :=
  [⟨"Home special", some 10, "is_home", none⟩, ⟨"Fallback", some 100, "", none⟩]

/-- C1 witness: on the concrete context both options match, the smallest
priority present is 10, and the selection returns the priority-10 template. -/
theorem select_description_correct_witness :
    select_description sample_cond_context sample_options 0 = Except.ok "Home special" := by
  have h := select_description_correct sample_cond_context sample_options 0
    [(10, "Home special"), (100, "Fallback")] rfl
  exact (h.2.2.1 10 rfl).2.2.1

theorem matched_pairs_cons (ctx : CondContext) (o : DescOption) (rest : List DescOption) :
    matched_pairs ctx (o :: rest) =
      if o.template = "" then matched_pairs ctx rest
      else if o.priority.getD 50 = 100 then
        (do
          let r ← matched_pairs ctx rest
          Except.ok ((100, o.template) :: r))
      else if o.condition = "" then matched_pairs ctx rest
      else
        (do
          let b ← evaluate_condition ctx o.condition o.condition_value
          let r ← matched_pairs ctx rest
          if b then Except.ok ((o.priority.getD 50, o.template) :: r)
          else Except.ok r) := rfl

theorem matched_pairs_middle_skip (ctx : CondContext) (o : DescOption)
    (h100 : o.priority.getD 50 ≠ 100) (hc : o.condition = "") :
    ∀ l1 l2, matched_pairs ctx (l1 ++ o :: l2) = matched_pairs ctx (l1 ++ l2) := by
  intro l1
  induction l1 with
  | nil =>
      intro l2
      show matched_pairs ctx (o :: l2) = matched_pairs ctx l2
      rw [matched_pairs_cons]
      by_cases ht : o.template = ""
      · rw [if_pos ht]
      · rw [if_neg ht, if_neg h100, if_pos hc]
  | cons a l1 ih =>
      intro l2
      show matched_pairs ctx (a :: (l1 ++ o :: l2)) = matched_pairs ctx (a :: (l1 ++ l2))
      rw [matched_pairs_cons, matched_pairs_cons, ih l2]

theorem matched_pairs_default_priority (ctx : CondContext) (o : DescOption)
    (hnone : o.priority = none) :
    ∀ l1 l2, matched_pairs ctx (l1 ++ o :: l2) =
      matched_pairs ctx (l1 ++ { o with priority := some 50 } :: l2) := by
  intro l1
  induction l1 with
  | nil =>
      intro l2
      show matched_pairs ctx (o :: l2) =
        matched_pairs ctx ({ o with priority := some 50 } :: l2)
      rw [matched_pairs_cons, matched_pairs_cons, hnone]
      rfl
  | cons a l1 ih =>
      intro l2
      show matched_pairs ctx (a :: (l1 ++ o :: l2)) =
        matched_pairs ctx (a :: (l1 ++ { o with priority := some 50 } :: l2))
      rw [matched_pairs_cons, matched_pairs_cons, ih l2]

theorem matched_pairs_all_skip (ctx : CondContext) (options : List DescOption)
    (h : ∀ u ∈ options, u.priority.getD 50 ≠ 100 ∧ u.condition = "") :
    matched_pairs ctx options = Except.ok [] := by
  induction options with
  | nil => rfl
  | cons u rest ih =>
      have hu := h u (List.mem_cons_self u rest)
      have hrest := ih (fun v hv => h v (List.mem_cons_of_mem u hv))
      rw [matched_pairs_cons]
      by_cases ht : u.template = ""
      · rw [if_pos ht]
        exact hrest
      · rw [if_neg ht, if_neg hu.1, if_pos hu.2]
        exact hrest

/-- C10: in `select_description`, an option whose (defaulted) priority is
not 100 and whose condition is absent/empty contributes nothing — removing
it never changes the result, and a list made only of such options selects
`''` even when their templates are non-empty and their priorities minimal;
and an option that omits `priority` behaves exactly as priority 50. -/
theorem conditionless_option_never_selected (ctx : CondContext) (o : DescOption)
    (l1 l2 : List DescOption) (k : Nat) :
    (o.priority.getD 50 ≠ 100 → o.condition = "" →
      select_description ctx (l1 ++ o :: l2) k = select_description ctx (l1 ++ l2) k) ∧
    (o.priority = none →
      select_description ctx (l1 ++ o :: l2) k =
        select_description ctx (l1 ++ { o with priority := some 50 } :: l2) k) ∧
    (∀ options, (∀ u ∈ options, u.priority.getD 50 ≠ 100 ∧ u.condition = "") →
      select_description ctx options k = Except.ok "") := by
  refine ⟨?_, ?_, ?_⟩
  · intro h100 hc
    have hmp := matched_pairs_middle_skip ctx o h100 hc l1 l2
    unfold select_description
    rw [if_neg (by simp), hmp]
    by_cases h2 : l1 ++ l2 = []
    · rw [if_pos h2]
      have : matched_pairs ctx (l1 ++ l2) = Except.ok [] := by
        rw [h2]
        rfl
      rw [this]
      rfl
    · rw [if_neg h2]
  · intro hnone
    have hmp := matched_pairs_default_priority ctx o hnone l1 l2
    unfold select_description
    rw [if_neg (by simp), if_neg (by simp), hmp]
  · intro options hall
    unfold select_description
    by_cases ho : options = []
    · rw [if_pos ho]
    · rw [if_neg ho, matched_pairs_all_skip ctx options hall]
      rfl

/-- C10 witness: a priority-10 option with a non-empty template but no
condition is never selected — the priority-100 fallback wins, exactly as if
the conditionless option were absent. -/
theorem conditionless_option_never_selected_witness :
    select_description sample_cond_context
      (⟨"Tempting", some 10, "", none⟩ :: [⟨"Fallback", some 100, "", none⟩]) 0 =
      select_description sample_cond_context [⟨"Fallback", some 100, "", none⟩] 0 :=
  (conditionless_option_never_selected sample_cond_context
    ⟨"Tempting", some 10, "", none⟩ [] [⟨"Fallback", some 100, "", none⟩] 0).1
    (by decide) rfl

/-! ## Variable dictionary and suffix discipline
(`TemplateEngine._build_variable_dict`)

The three exclusion sets are transcribed from the source; the combinator
`build_variable_dict_gen` is the exact filter/suffix logic of
`_build_variable_dict`, abstracted over the per-context variable lists that
`_build_variables_from_game_context` produces (all of whose variable names
are dot-free literals). -/

/-- `LAST_ONLY_VARS` from `_build_variable_dict`. -/
def LAST_ONLY_VARS : List String :=
  ["final_score", "opponent_score", "overtime_text", "result", "result_text",
   "result_verb", "score", "score_diff", "score_differential",
   "score_differential_text", "team_score"]

/-- `BASE_NEXT_ONLY_VARS` from `_build_variable_dict`. -/
def BASE_NEXT_ONLY_VARS : List String :=
  ["odds_details", "odds_provider", "odds_moneyline", "odds_opponent_moneyline",
   "odds_opponent_spread", "odds_over_under", "odds_spread"]

/-- `BASE_ONLY_VARS` from `_build_variable_dict`. -/
def BASE_ONLY_VARS : List String :=
  ["away_record", "away_streak", "away_win_pct", "games_back", "head_coach",
   "home_record", "home_streak", "home_win_pct", "is_national_broadcast",
   "is_playoff", "is_preseason", "is_ranked", "is_ranked_matchup",
   "is_regular_season", "last_10_record", "last_5_record", "league", "league_id",
   "league_name", "gracenote_category", "opponent_is_ranked", "playoff_seed",
   "pro_conference", "pro_conference_abbrev", "pro_division",
   "soccer_primary_league", "soccer_primary_league_id", "sport", "streak",
   "team_abbrev", "team_losses", "team_name", "team_name_pascal", "team_papg",
   "team_ppg", "team_rank", "team_record", "team_ties", "team_win_pct",
   "team_wins"]

/-- The assembly step of `_build_variable_dict`: base variables are the
current-game variables minus `LAST_ONLY_VARS`; `.next` variables are the
next-game variables minus `BASE_ONLY_VARS` and `LAST_ONLY_VARS` (only when a
next-game context exists); `.last` variables are the last-game variables
minus `BASE_ONLY_VARS` and `BASE_NEXT_ONLY_VARS` (only when a last-game
context exists). -/
def build_variable_dict_gen (current next last : List (String × String))
    (has_next has_last : Bool) : List (String × String) :=
  (current.filter (fun kv => kv.1 ∉ LAST_ONLY_VARS)) ++
  (if has_next then
    (next.filter (fun kv => kv.1 ∉ BASE_ONLY_VARS ∧ kv.1 ∉ LAST_ONLY_VARS)).map
      (fun kv => (kv.1 ++ ".next", kv.2))
  else []) ++
  (if has_last then
    (last.filter (fun kv => kv.1 ∉ BASE_ONLY_VARS ∧ kv.1 ∉ BASE_NEXT_ONLY_VARS)).map
      (fun kv => (kv.1 ++ ".last", kv.2))
  else [])

theorem string_suffix_inj {a b s t : String} (hst : s.length = t.length)
    (h : a ++ s = b ++ t) : a = b ∧ s = t := by
  have hd : a.data ++ s.data = b.data ++ t.data := by
    have : (a ++ s).data = (b ++ t).data := by rw [h]
    simpa using this
  obtain ⟨h1, h2⟩ := List.append_inj' hd hst
  exact ⟨String.ext h1, String.ext h2⟩

theorem last_only_no_dot : ∀ n ∈ LAST_ONLY_VARS, '.' ∉ n.data := by decide

theorem dot_mem_suffix (name : String) (s : String) (hs : '.' ∈ s.data) :
    '.' ∈ (name ++ s).data := by
  have : (name ++ s).data = name.data ++ s.data := rfl
  rw [this]
  exact List.mem_append_right _ hs

/-- Key membership in the assembled dictionary. -/
theorem mem_keys_gen (key : String) (current next last : List (String × String))
    (hn hl : Bool) :
    key ∈ (build_variable_dict_gen current next last hn hl).map (·.1) ↔
      ((∃ kv ∈ current, kv.1 ∉ LAST_ONLY_VARS ∧ key = kv.1) ∨
        (hn = true ∧ ∃ kv ∈ next, (kv.1 ∉ BASE_ONLY_VARS ∧ kv.1 ∉ LAST_ONLY_VARS) ∧
          key = kv.1 ++ ".next") ∨
        (hl = true ∧ ∃ kv ∈ last, (kv.1 ∉ BASE_ONLY_VARS ∧ kv.1 ∉ BASE_NEXT_ONLY_VARS) ∧
          key = kv.1 ++ ".last")) := by
  unfold build_variable_dict_gen
  rw [List.map_append, List.map_append]
  constructor
  · intro h
    rcases List.mem_append.mp h with h | h
    · rcases List.mem_append.mp h with h | h
      · obtain ⟨kv, hkvf, hkey⟩ := List.mem_map.mp h
        obtain ⟨hkv, hp⟩ := List.mem_filter.mp hkvf
        exact Or.inl ⟨kv, hkv, by simpa using hp, hkey.symm⟩
      · cases hn with
        | false => simp at h
        | true =>
            rw [if_pos rfl] at h
            rw [List.map_map] at h
            obtain ⟨kv, hkvf, hkey⟩ := List.mem_map.mp h
            obtain ⟨hkv, hp⟩ := List.mem_filter.mp hkvf
            exact Or.inr (Or.inl ⟨rfl, kv, hkv, by simpa using hp, hkey.symm⟩)
    · cases hl with
      | false => simp at h
      | true =>
          rw [if_pos rfl] at h
          rw [List.map_map] at h
          obtain ⟨kv, hkvf, hkey⟩ := List.mem_map.mp h
          obtain ⟨hkv, hp⟩ := List.mem_filter.mp hkvf
          exact Or.inr (Or.inr ⟨rfl, kv, hkv, by simpa using hp, hkey.symm⟩)
  · intro h
    rcases h with ⟨kv, hkv, hnl, hkey⟩ | ⟨hn', kv, hkv, hp, hkey⟩ | ⟨hl', kv, hkv, hp, hkey⟩
    · refine List.mem_append.mpr (Or.inl (List.mem_append.mpr (Or.inl ?_)))
      refine List.mem_map.mpr ⟨kv, ?_, hkey.symm⟩
      refine List.mem_filter.mpr ⟨hkv, ?_⟩
      simpa using hnl
    · subst hn'
      refine List.mem_append.mpr (Or.inl (List.mem_append.mpr (Or.inr ?_)))
      rw [if_pos rfl, List.map_map]
      refine List.mem_map.mpr ⟨kv, ?_, hkey.symm⟩
      refine List.mem_filter.mpr ⟨hkv, ?_⟩
      simpa using hp
    · subst hl'
      refine List.mem_append.mpr (Or.inr ?_)
      rw [if_pos rfl, List.map_map]
      refine List.mem_map.mpr ⟨kv, ?_, hkey.symm⟩
      refine List.mem_filter.mpr ⟨hkv, ?_⟩
      simpa using hp

/-- C2: the variable dictionary obeys suffix discipline — whatever the
per-context builders produce (their variable names are dot-free), no
`BASE_ONLY` name appears under `.next` or `.last`, no `LAST_ONLY` name
appears as a base or `.next` key, and no `BASE_NEXT_ONLY` name appears
under `.last`. -/
theorem suffix_discipline (current next last : List (String × String))
    (has_next has_last : Bool)
    (hcur : ∀ kv ∈ current, '.' ∉ kv.1.data) :
    (∀ name ∈ BASE_ONLY_VARS,
      (name ++ ".next") ∉
        (build_variable_dict_gen current next last has_next has_last).map (·.1) ∧
      (name ++ ".last") ∉
        (build_variable_dict_gen current next last has_next has_last).map (·.1)) ∧
    (∀ name ∈ LAST_ONLY_VARS,
      name ∉ (build_variable_dict_gen current next last has_next has_last).map (·.1) ∧
      (name ++ ".next") ∉
        (build_variable_dict_gen current next last has_next has_last).map (·.1)) ∧
    (∀ name ∈ BASE_NEXT_ONLY_VARS,
      (name ++ ".last") ∉
        (build_variable_dict_gen current next last has_next has_last).map (·.1)) := by
  have hnextdot : ('.' : Char) ∈ ".next".data := by decide
  have hlastdot : ('.' : Char) ∈ ".last".data := by decide
  have hlen : ".next".length = ".last".length := by decide
  refine ⟨?_, ?_, ?_⟩
  · intro name hname
    constructor
    · intro hk
      rcases (mem_keys_gen _ _ _ _ _ _).mp hk with ⟨kv, hkv, -, hkey⟩ |
        ⟨-, kv, hkv, ⟨hb, -⟩, hkey⟩ | ⟨-, kv, hkv, -, hkey⟩
      · exact hcur kv hkv (hkey ▸ dot_mem_suffix name ".next" hnextdot)
      · obtain ⟨he, -⟩ := string_suffix_inj rfl hkey.symm
        exact hb (he ▸ hname)
      · obtain ⟨-, he⟩ := string_suffix_inj hlen hkey
        exact absurd he (by decide)
    · intro hk
      rcases (mem_keys_gen _ _ _ _ _ _).mp hk with ⟨kv, hkv, -, hkey⟩ |
        ⟨-, kv, hkv, -, hkey⟩ | ⟨-, kv, hkv, ⟨hb, -⟩, hkey⟩
      · exact hcur kv hkv (hkey ▸ dot_mem_suffix name ".last" hlastdot)
      · obtain ⟨-, he⟩ := string_suffix_inj hlen.symm hkey
        exact absurd he (by decide)
      · obtain ⟨he, -⟩ := string_suffix_inj rfl hkey.symm
        exact hb (he ▸ hname)
  · intro name hname
    have hnamedot : '.' ∉ name.data := last_only_no_dot name hname
    constructor
    · intro hk
      rcases (mem_keys_gen _ _ _ _ _ _).mp hk with ⟨kv, hkv, hnl, hkey⟩ |
        ⟨-, kv, hkv, -, hkey⟩ | ⟨-, kv, hkv, -, hkey⟩
      · exact hnl (hkey ▸ hname)
      · exact hnamedot (hkey ▸ dot_mem_suffix kv.1 ".next" hnextdot)
      · exact hnamedot (hkey ▸ dot_mem_suffix kv.1 ".last" hlastdot)
    · intro hk
      rcases (mem_keys_gen _ _ _ _ _ _).mp hk with ⟨kv, hkv, -, hkey⟩ |
        ⟨-, kv, hkv, ⟨-, hnl⟩, hkey⟩ | ⟨-, kv, hkv, -, hkey⟩
      · exact hcur kv hkv (hkey ▸ dot_mem_suffix name ".next" hnextdot)
      · obtain ⟨he, -⟩ := string_suffix_inj rfl hkey.symm
        exact hnl (he ▸ hname)
      · obtain ⟨-, he⟩ := string_suffix_inj hlen hkey
        exact absurd he (by decide)
  · intro name hname
    intro hk
    rcases (mem_keys_gen _ _ _ _ _ _).mp hk with ⟨kv, hkv, -, hkey⟩ |
      ⟨-, kv, hkv, -, hkey⟩ | ⟨-, kv, hkv, ⟨-, hbn⟩, hkey⟩
    · exact hcur kv hkv (hkey ▸ dot_mem_suffix name ".last" hlastdot)
    · obtain ⟨-, he⟩ := string_suffix_inj hlen.symm hkey
      exact absurd he (by decide)
    · obtain ⟨he, -⟩ := string_suffix_inj rfl hkey.symm
      exact hbn (he ▸ hname)

/-! ## Template resolution (`TemplateEngine.resolve`)

`resolve` builds the variable dictionary and substitutes every
`{name}` / `{name.next}` / `{name.last}` placeholder (regex
`\x7b([a-z_][a-z0-9_@]*(?:\.[a-z]+)?)\x7d` with `IGNORECASE`); unknown
placeholders become the empty string.  The regex scan is embedded as a
left-to-right state machine: matches start only at `\x7b`, and no
placeholder-class character can restart a match, so the machine is exact.

`_build_variables_from_game_context` is embedded on a representative slice
of its 227 variables — identity, home/away, venue, score, odds, and the
`days_until` variable of its DATE & TIME section, which is the builder's
single use of the wall clock (`datetime.now`); every omitted variable is a
function of the context alone. -/

/-- The `team_config` slice the builder reads (with `league` holding the
resolved display value of `league_name or league.upper()`). -/
structure TeamConfigVars where
  team_name : String
  league : String
  espn_team_id : String
deriving Repr, DecidableEq

/-- The slice of a raw game dict the modelled builder reads; `date` is the
parsed ISO instant in epoch seconds (`none` when absent or unparseable,
matching the `try/except` around the DATE & TIME section). -/
structure GameVars where
  home_team : Option TeamRef
  away_team : Option TeamRef
  venue_name : String
  venue_city : String
  venue_state : String
  score : String
  odds_spread : String
  date : Option Nat
deriving Repr, DecidableEq

/-- `max(0, int((game_dt - now).total_seconds() / 86400))`. -/
def days_until_value (d now : Nat) : Nat := if now ≤ d then (d - now) / 86400 else 0

/-- The wall-clock-dependent variables of the DATE & TIME section (emitted
only when the game has a parseable date). -/
def date_vars (game : Option GameVars) (now : Nat) : List (String × String) :=
  match (game.getD ⟨none, none, "", "", "", "", "", none⟩).date with
  | some d => [("days_until", toString (days_until_value d now))]
  | none => []

/-- The wall-clock-independent slice of the builder's variables. -/
def stable_vars (game : Option GameVars) (tc : TeamConfigVars) : List (String × String) :=
  let g := game.getD ⟨none, none, "", "", "", "", "", none⟩
  let ha := determine_home_away ⟨g.home_team, g.away_team, none, none⟩ tc.espn_team_id
  let is_home := ha.1
  let our := if is_home then g.home_team.getD TeamRef.empty else g.away_team.getD TeamRef.empty
  let home := g.home_team.getD TeamRef.empty
  let away := g.away_team.getD TeamRef.empty
  let venue_full :=
    if g.venue_name ≠ "" ∧ g.venue_city ≠ "" ∧ g.venue_state ≠ "" then
      g.venue_name ++ ", " ++ g.venue_city ++ ", " ++ g.venue_state
    else if g.venue_name ≠ "" ∧ g.venue_city ≠ "" then
      g.venue_name ++ ", " ++ g.venue_city
    else g.venue_name
  [("team_name", if our.name ≠ "" then our.name else tc.team_name),
   ("league", tc.league),
   ("home_team", home.name), ("away_team", away.name),
   ("is_home", if is_home then "true" else "false"),
   ("is_away", if is_home then "false" else "true"),
   ("home_away_text", if is_home then "at home" else "on the road"),
   ("vs_at", if is_home then "vs" else "at"),
   ("vs_@", if is_home then "vs" else "@"),
   ("venue", g.venue_name), ("venue_city", g.venue_city),
   ("venue_state", g.venue_state), ("venue_full", venue_full),
   ("score", g.score), ("odds_spread", g.odds_spread)]

/-- `_build_variables_from_game_context` on the modelled slice. -/
def build_variables_from_game_context (game : Option GameVars) (tc : TeamConfigVars)
    (now : Nat) : List (String × String) :=
  stable_vars game tc ++ date_vars game now

/-- The context handed to `resolve`. -/
structure ResolveContext where
  team_config : TeamConfigVars
  game : Option GameVars
  next_game : Option GameVars
  last_game : Option GameVars
deriving Repr, DecidableEq

/-- `_build_variable_dict` on the modelled slice. -/
def build_variable_dict (ctx : ResolveContext) (now : Nat) : List (String × String) :=
  build_variable_dict_gen
    (build_variables_from_game_context ctx.game ctx.team_config now)
    (build_variables_from_game_context ctx.next_game ctx.team_config now)
    (build_variables_from_game_context ctx.last_game ctx.team_config now)
    ctx.next_game.isSome ctx.last_game.isSome

/-- `variables.get(var_name, '')`. -/
def lookup_var (vars : List (String × String)) (name : String) : String :=
  ((vars.find? (fun kv => kv.1 = name)).map (·.2)).getD ""

/-- First character of a placeholder name: `[a-z_]` with `IGNORECASE`. -/
def is_head_char (c : Char) : Bool := c.isAlpha || c = '_'

/-- Later characters of a placeholder name: `[a-z0-9_@]` with `IGNORECASE`. -/
def is_body_char (c : Char) : Bool := c.isAlphanum || c = '_' || c = '@'

/-- Scanner state: outside any placeholder, inside a name after `\x7b`, or
inside a suffix after the dot. -/
inductive SubstState
  | out : SubstState
  | inside : List Char → SubstState
  | suffixed : List Char → List Char → SubstState
deriving Repr, DecidableEq

/-- The literal text of an unfinished placeholder, for flushing at
end-of-input or on an invalid character. -/
def SubstState.flush : SubstState → List Char
  | SubstState.out => []
  | SubstState.inside buf => '{' :: buf
  | SubstState.suffixed base suf => '{' :: base ++ '.' :: suf

/-- The `re.sub` scan: replace every maximal placeholder match by its
variable's value (or `''`), leave everything else literal. -/
def subst_go (vars : List (String × String)) : SubstState → List Char → List Char
  | st, [] => st.flush
  | SubstState.out, c :: rest =>
      if c = '{' then subst_go vars (SubstState.inside []) rest
      else c :: subst_go vars SubstState.out rest
  | SubstState.inside buf, c :: rest =>
      if c = '}' then
        if buf = [] then '{' :: '}' :: subst_go vars SubstState.out rest
        else (lookup_var vars ⟨buf⟩).data ++ subst_go vars SubstState.out rest
      else if buf = [] then
        if is_head_char c then subst_go vars (SubstState.inside [c]) rest
        else if c = '{' then '{' :: subst_go vars (SubstState.inside []) rest
        else '{' :: c :: subst_go vars SubstState.out rest
      else
        if is_body_char c then subst_go vars (SubstState.inside (buf ++ [c])) rest
        else if c = '.' then subst_go vars (SubstState.suffixed buf []) rest
        else if c = '{' then ('{' :: buf) ++ subst_go vars (SubstState.inside []) rest
        else ('{' :: buf) ++ c :: subst_go vars SubstState.out rest
  | SubstState.suffixed base suf, c :: rest =>
      if c = '}' then
        if suf = [] then ('{' :: base ++ ['.', '}']) ++ subst_go vars SubstState.out rest
        else (lookup_var vars ⟨base ++ '.' :: suf⟩).data ++ subst_go vars SubstState.out rest
      else if c.isAlpha then subst_go vars (SubstState.suffixed base (suf ++ [c])) rest
      else if c = '{' then ('{' :: base ++ '.' :: suf) ++ subst_go vars (SubstState.inside []) rest
      else ('{' :: base ++ '.' :: suf) ++ c :: subst_go vars SubstState.out rest

/-- The placeholder names a template references, via the same scan. -/
def refs_go : SubstState → List Char → List String
  | _, [] => []
  | SubstState.out, c :: rest =>
      if c = '{' then refs_go (SubstState.inside []) rest
      else refs_go SubstState.out rest
  | SubstState.inside buf, c :: rest =>
      if c = '}' then
        if buf = [] then refs_go SubstState.out rest
        else (⟨buf⟩ : String) :: refs_go SubstState.out rest
      else if buf = [] then
        if is_head_char c then refs_go (SubstState.inside [c]) rest
        else if c = '{' then refs_go (SubstState.inside []) rest
        else refs_go SubstState.out rest
      else
        if is_body_char c then refs_go (SubstState.inside (buf ++ [c])) rest
        else if c = '.' then refs_go (SubstState.suffixed buf []) rest
        else if c = '{' then refs_go (SubstState.inside []) rest
        else refs_go SubstState.out rest
  | SubstState.suffixed base suf, c :: rest =>
      if c = '}' then
        if suf = [] then refs_go SubstState.out rest
        else (⟨base ++ '.' :: suf⟩ : String) :: refs_go SubstState.out rest
      else if c.isAlpha then refs_go (SubstState.suffixed base (suf ++ [c])) rest
      else if c = '{' then refs_go (SubstState.inside []) rest
      else refs_go SubstState.out rest

/-- `TemplateEngine.resolve` at wall-clock instant `now`. -/
def resolve (template : String) (ctx : ResolveContext) (now : Nat) : String :=
  if template = "" then ""
  else ⟨subst_go (build_variable_dict ctx now) SubstState.out template.data⟩

/-- The variable names a template references. -/
def referenced_vars (template : String) : List String :=
  refs_go SubstState.out template.data

theorem subst_go_congr (v1 v2 : List (String × String)) :
    ∀ (cs : List Char) (st : SubstState),
    (∀ n ∈ refs_go st cs, lookup_var v1 n = lookup_var v2 n) →
    subst_go v1 st cs = subst_go v2 st cs := by
  intro cs
  induction cs with
  | nil =>
      intro st h
      cases st <;> rfl
  | cons c rest ih =>
      intro st h
      cases st with
      | out =>
          by_cases hc : c = '{'
          · simp only [subst_go, refs_go, if_pos hc] at h ⊢
            exact ih _ h
          · simp only [subst_go, refs_go, if_neg hc] at h ⊢
            rw [ih _ h]
      | inside buf =>
          by_cases hc : c = '}'
          · by_cases hb : buf = []
            · simp only [subst_go, refs_go, if_pos hc, if_pos hb] at h ⊢
              rw [ih _ h]
            · simp only [subst_go, refs_go, if_pos hc, if_neg hb] at h ⊢
              have hn := h ⟨buf⟩ (List.mem_cons_self _ _)
              rw [hn, ih _ (fun n hmem => h n (List.mem_cons_of_mem _ hmem))]
          · by_cases hb : buf = []
            · by_cases hh : is_head_char c
              · simp only [subst_go, refs_go, if_neg hc, if_pos hb, if_pos hh] at h ⊢
                exact ih _ h
              · by_cases ho : c = '{'
                · simp only [subst_go, refs_go, if_neg hc, if_pos hb, if_neg hh,
                    if_pos ho] at h ⊢
                  rw [ih _ h]
                · simp only [subst_go, refs_go, if_neg hc, if_pos hb, if_neg hh,
                    if_neg ho] at h ⊢
                  rw [ih _ h]
            · by_cases hbo : is_body_char c
              · simp only [subst_go, refs_go, if_neg hc, if_neg hb, if_pos hbo] at h ⊢
                exact ih _ h
              · by_cases hd : c = '.'
                · simp only [subst_go, refs_go, if_neg hc, if_neg hb, if_neg hbo,
                    if_pos hd] at h ⊢
                  exact ih _ h
                · by_cases ho : c = '{'
                  · simp only [subst_go, refs_go, if_neg hc, if_neg hb, if_neg hbo,
                      if_neg hd, if_pos ho] at h ⊢
                    rw [ih _ h]
                  · simp only [subst_go, refs_go, if_neg hc, if_neg hb, if_neg hbo,
                      if_neg hd, if_neg ho] at h ⊢
                    rw [ih _ h]
      | suffixed base suf =>
          by_cases hc : c = '}'
          · by_cases hs : suf = []
            · simp only [subst_go, refs_go, if_pos hc, if_pos hs] at h ⊢
              rw [ih _ h]
            · simp only [subst_go, refs_go, if_pos hc, if_neg hs] at h ⊢
              have hn := h ⟨base ++ '.' :: suf⟩ (List.mem_cons_self _ _)
              rw [hn, ih _ (fun n hmem => h n (List.mem_cons_of_mem _ hmem))]
          · by_cases ha : c.isAlpha
            · simp only [subst_go, refs_go, if_neg hc, if_pos ha] at h ⊢
              exact ih _ h
            · by_cases ho : c = '{'
              · simp only [subst_go, refs_go, if_neg hc, if_neg ha, if_pos ho] at h ⊢
                rw [ih _ h]
              · simp only [subst_go, refs_go, if_neg hc, if_neg ha, if_neg ho] at h ⊢
                rw [ih _ h]

theorem find?_filter_date_none (g : Option GameVars) (now : Nat) (n : String)
    (p : String × String → Bool) (hn : n ≠ "days_until") :
    ((date_vars g now).filter p).find? (fun kv => kv.1 = n) = none := by
  apply List.find?_eq_none.mpr
  intro kv hkv
  have hkv' := List.mem_of_mem_filter hkv
  unfold date_vars at hkv'
  cases hd : (g.getD ⟨none, none, "", "", "", "", "", none⟩).date with
  | none =>
      rw [hd] at hkv'
      exact absurd hkv' (List.not_mem_nil kv)
  | some d =>
      rw [hd] at hkv'
      have hkveq : kv = ("days_until", toString (days_until_value d now)) := by
        simpa using hkv'
      subst hkveq
      simp only [decide_eq_true_eq]
      exact fun hh => hn hh.symm

theorem find?_map_filter_date_none (g : Option GameVars) (now : Nat) (n sfx : String)
    (p : String × String → Bool) (hn : n ≠ "days_until" ++ sfx) :
    (((date_vars g now).filter p).map (fun kv => (kv.1 ++ sfx, kv.2))).find?
      (fun kv => kv.1 = n) = none := by
  apply List.find?_eq_none.mpr
  intro kv hkv
  obtain ⟨kv0, hkv0, hkveq⟩ := List.mem_map.mp hkv
  have hkv0' := List.mem_of_mem_filter hkv0
  unfold date_vars at hkv0'
  cases hd : (g.getD ⟨none, none, "", "", "", "", "", none⟩).date with
  | none =>
      rw [hd] at hkv0'
      exact absurd hkv0' (List.not_mem_nil kv0)
  | some d =>
      rw [hd] at hkv0'
      have hk0 : kv0 = ("days_until", toString (days_until_value d now)) := by
        simpa using hkv0'
      subst hk0
      subst hkveq
      simp only [decide_eq_true_eq]
      exact fun hh => hn hh.symm

theorem lookup_build_variable_dict_now (ctx : ResolveContext) (n1 n2 : Nat) (n : String)
    (h1 : n ≠ "days_until") (h2 : n ≠ "days_until.next") (h3 : n ≠ "days_until.last") :
    lookup_var (build_variable_dict ctx n1) n = lookup_var (build_variable_dict ctx n2) n := by
  have h2' : n ≠ "days_until" ++ ".next" := by
    intro hh
    exact h2 (hh.trans (by rfl))
  have h3' : n ≠ "days_until" ++ ".last" := by
    intro hh
    exact h3 (hh.trans (by rfl))
  unfold lookup_var
  suffices hf : (build_variable_dict ctx n1).find? (fun kv => kv.1 = n) =
      (build_variable_dict ctx n2).find? (fun kv => kv.1 = n) by rw [hf]
  have e1 : ∀ p, ((date_vars ctx.game n1).filter p).find? (fun kv => kv.1 = n) = none :=
    fun p => find?_filter_date_none ctx.game n1 n p h1
  have e2 : ∀ p, ((date_vars ctx.game n2).filter p).find? (fun kv => kv.1 = n) = none :=
    fun p => find?_filter_date_none ctx.game n2 n p h1
  have e3 : ∀ p, (((date_vars ctx.next_game n1).filter p).map
      (fun kv => (kv.1 ++ ".next", kv.2))).find? (fun kv => kv.1 = n) = none :=
    fun p => find?_map_filter_date_none ctx.next_game n1 n ".next" p h2'
  have e4 : ∀ p, (((date_vars ctx.next_game n2).filter p).map
      (fun kv => (kv.1 ++ ".next", kv.2))).find? (fun kv => kv.1 = n) = none :=
    fun p => find?_map_filter_date_none ctx.next_game n2 n ".next" p h2'
  have e5 : ∀ p, (((date_vars ctx.last_game n1).filter p).map
      (fun kv => (kv.1 ++ ".last", kv.2))).find? (fun kv => kv.1 = n) = none :=
    fun p => find?_map_filter_date_none ctx.last_game n1 n ".last" p h3'
  have e6 : ∀ p, (((date_vars ctx.last_game n2).filter p).map
      (fun kv => (kv.1 ++ ".last", kv.2))).find? (fun kv => kv.1 = n) = none :=
    fun p => find?_map_filter_date_none ctx.last_game n2 n ".last" p h3'
  unfold build_variable_dict build_variable_dict_gen build_variables_from_game_context
  cases hnx : ctx.next_game.isSome <;> cases hlx : ctx.last_game.isSome <;>
    simp only [Bool.false_eq_true, if_false, if_true, List.filter_append, List.map_append,
      List.find?_append, List.find?_nil, e1, e2, e3, e4, e5, e6, Option.or_none,
      Option.none_or]

/-- C9 (amended): `resolve` is a deterministic function of the template,
the context and the wall-clock instant, and for every template that does
not reference the `days_until` variable (in any suffix form) the result is
independent of the wall clock — `days_until` being the template engine's
only read of hidden state. -/
theorem resolve_now_independent (T : String) (ctx : ResolveContext) (n1 n2 : Nat)
    (h : ∀ v ∈ referenced_vars T,
      v ≠ "days_until" ∧ v ≠ "days_until.next" ∧ v ≠ "days_until.last") :
    resolve T ctx n1 = resolve T ctx n2 := by
  unfold resolve
  by_cases ht : T = ""
  · rw [if_pos ht, if_pos ht]
  · rw [if_neg ht, if_neg ht]
    have hs := subst_go_congr (build_variable_dict ctx n1) (build_variable_dict ctx n2)
      T.data SubstState.out ?_
    · rw [hs]
    · intro n hn
      obtain ⟨g1, g2, g3⟩ := h n hn
      exact lookup_build_variable_dict_now ctx n1 n2 n g1 g2 g3

/-- A concrete resolve context whose current game is ten days after the
epoch. -/
def sample_resolve_context : ResolveContext :=
  { team_config := ⟨"Detroit Red Wings", "NHL", "5"⟩
    game := some
      { home_team := some ⟨"5", "Red Wings", "Detroit Red Wings"⟩
        away_team := some ⟨"6", "Blackhawks", "Chicago Blackhawks"⟩
        venue_name := "Little Caesars Arena"
        venue_city := "Detroit"
        venue_state := "MI"
        score := "3-1"
        odds_spread := "-3.5"
        date := some 864000 }
    next_game := none
    last_game := none }

/-- C9 counterexample: `resolve` is not a pure function of `(template,
ctx)` — the very same call made one day apart yields `10` and then `9` for
`days_until`, so the result depends on the wall clock. -/
theorem resolve_depends_on_wall_clock :
    resolve "{days_until}" sample_resolve_context 0 ≠
      resolve "{days_until}" sample_resolve_context 86400 := by decide

/-- C9 witness: a template referencing only `team_name` resolves
identically at two different wall-clock instants. -/
theorem resolve_now_independent_witness :
    resolve "{team_name}" sample_resolve_context 0 =
      resolve "{team_name}" sample_resolve_context 86400 :=
  resolve_now_independent "{team_name}" sample_resolve_context 0 86400 (by decide)

/-- C2 witness: on the concrete context's builder outputs, `team_name`
(BASE_ONLY) gets no `.next` key, `score` (LAST_ONLY) gets no base key, and
`odds_spread` (BASE_NEXT_ONLY) gets no `.last` key. -/
theorem suffix_discipline_witness :
    ("team_name" ++ ".next") ∉ (build_variable_dict sample_resolve_context 0).map (·.1) ∧
    "score" ∉ (build_variable_dict sample_resolve_context 0).map (·.1) ∧
    ("odds_spread" ++ ".last") ∉ (build_variable_dict sample_resolve_context 0).map (·.1) := by
  have h := suffix_discipline
    (build_variables_from_game_context sample_resolve_context.game
      sample_resolve_context.team_config 0)
    (build_variables_from_game_context sample_resolve_context.next_game
      sample_resolve_context.team_config 0)
    (build_variables_from_game_context sample_resolve_context.last_game
      sample_resolve_context.team_config 0)
    sample_resolve_context.next_game.isSome sample_resolve_context.last_game.isSome
    (by decide)
  exact ⟨(h.1 "team_name" (by decide)).1, (h.2.1 "score" (by decide)).1,
    h.2.2 "odds_spread" (by decide)⟩

/-! ## Keyword-variant channel ordering
(`src/teamarr/consumers/enforcement/ordering.py`)

`KeywordOrderingEnforcer.enforce` queries the pairs needing reorder once
(capturing both channel numbers at query time) and then swaps each pair's
numbers in the database and in the downstream manager, logging a
`channel_history` row for each channel of the pair.  The downstream manager
is modelled as a map from Dispatcharr channel id to number. -/

structure Channel where
  id : Nat
  event_id : String
  group_id : Nat
  number : Int
  exception_keyword : Option String
  deleted : Bool
  dispatcharr_id : Nat
deriving Repr, DecidableEq

/-- `exception_keyword IS NULL OR exception_keyword = ''`. -/
def is_main_channel (c : Channel) : Bool :=
  match c.exception_keyword with
  | none => true
  | some s => s = ""

/-- `exception_keyword IS NOT NULL AND exception_keyword != ''`. -/
def is_keyword_channel (c : Channel) : Bool :=
  match c.exception_keyword with
  | none => false
  | some s => s ≠ ""

/-- `_get_channels_needing_reorder`: the join of main and keyword channels
of the same `(event_id, event_epg_group_id)`, both non-deleted, with the
keyword number below the main number.  The pair carries the channel rows —
and hence the numbers — as read at query time. -/
def needing_reorder (chans : List Channel) : List (Channel × Channel) :=
  ((chans.map (fun m => chans.map (fun k => (m, k)))).flatten).filter
    (fun p => ¬p.1.deleted ∧ ¬p.2.deleted ∧ p.1.event_id = p.2.event_id ∧
      p.1.group_id = p.2.group_id ∧ is_main_channel p.1 ∧ is_keyword_channel p.2 ∧
      p.2.number < p.1.number)

/-- One `channel_history` row logged by a swap. -/
structure HistoryRow where
  managed_channel_id : Nat
  change_type : String
  old_value : Int
  new_value : Int
deriving Repr, DecidableEq

/-- The enforcer's world: managed-channel rows, the downstream manager's
number map (by Dispatcharr channel id), and the history log. -/
structure EnforceState where
  channels : List Channel
  manager : Nat → Int
  history : List HistoryRow

/-- `UPDATE managed_channels SET channel_number = ? WHERE id = ?`. -/
def set_number (chans : List Channel) (cid : Nat) (num : Int) : List Channel :=
  chans.map (fun c => if c.id = cid then { c with number := num } else c)

/-- One loop iteration of `enforce`: swap the pair's captured numbers in
the manager and the database, then log history for both channels. -/
def apply_swap (st : EnforceState) (p : Channel × Channel) : EnforceState :=
  { channels := set_number (set_number st.channels p.1.id p.2.number) p.2.id p.1.number
    manager := fun d =>
      if d = p.2.dispatcharr_id then p.1.number
      else if d = p.1.dispatcharr_id then p.2.number
      else st.manager d
    history := st.history ++
      [⟨p.1.id, "number_swapped", p.1.number, p.2.number⟩,
       ⟨p.2.id, "number_swapped", p.2.number, p.1.number⟩] }

/-- `KeywordOrderingEnforcer.enforce` (success path): compute the pairs
once, then apply every swap. -/
def enforce (st : EnforceState) : EnforceState :=
  (needing_reorder st.channels).foldl apply_swap st

/-- The last number written to database row `cid` by a run over the given
pairs (`none` when no pair touches it). -/
def swap_write (cid : Nat) (acc : Option Int) (p : Channel × Channel) : Option Int :=
  if p.1.id = cid then some p.2.number
  else if p.2.id = cid then some p.1.number
  else acc

/-- Last write over a whole pair list. -/
def last_write (P : List (Channel × Channel)) (cid : Nat) : Option Int :=
  P.foldl (swap_write cid) none

/-- The number of the row with the given id. -/
def channel_number_of (chans : List Channel) (cid : Nat) : Option Int :=
  ((chans.find? (fun c => c.id = cid)).map (·.number))

theorem mem_needing_reorder (chans : List Channel) (p : Channel × Channel) :
    p ∈ needing_reorder chans ↔
      p.1 ∈ chans ∧ p.2 ∈ chans ∧ ¬p.1.deleted ∧ ¬p.2.deleted ∧
      p.1.event_id = p.2.event_id ∧ p.1.group_id = p.2.group_id ∧
      is_main_channel p.1 ∧ is_keyword_channel p.2 ∧ p.2.number < p.1.number := by
  unfold needing_reorder
  rw [List.mem_filter]
  constructor
  · rintro ⟨hmem, hprop⟩
    simp only [List.mem_flatten, List.mem_map] at hmem
    obtain ⟨l, ⟨m, hm, rfl⟩, hpl⟩ := hmem
    obtain ⟨k, hk, rfl⟩ := List.mem_map.mp hpl
    simp only [decide_eq_true_eq] at hprop
    exact ⟨hm, hk, hprop.1, hprop.2.1, hprop.2.2.1, hprop.2.2.2.1, hprop.2.2.2.2.1,
      hprop.2.2.2.2.2.1, hprop.2.2.2.2.2.2⟩
  · rintro ⟨h1, h2, h3, h4, h5, h6, h7, h8, h9⟩
    constructor
    · simp only [List.mem_flatten, List.mem_map]
      refine ⟨chans.map (fun k => (p.1, k)), ⟨p.1, h1, rfl⟩, ?_⟩
      exact List.mem_map.mpr ⟨p.2, h2, by rw [Prod.mk.eta]⟩
    · simp only [decide_eq_true_eq]
      exact ⟨h3, h4, h5, h6, h7, h8, h9⟩

theorem last_write_acc (P : List (Channel × Channel)) (cid : Nat) :
    ∀ acc, P.foldl (swap_write cid) acc = (last_write P cid).or acc := by
  induction P with
  | nil =>
      intro acc
      simp [last_write]
  | cons p P' ih =>
      intro acc
      show P'.foldl (swap_write cid) (swap_write cid acc p) = _
      rw [ih (swap_write cid acc p)]
      have hr : last_write (p :: P') cid = (last_write P' cid).or (swap_write cid none p) := by
        show P'.foldl (swap_write cid) (swap_write cid none p) = _
        exact ih (swap_write cid none p)
      rw [hr]
      unfold swap_write
      by_cases h1 : p.1.id = cid
      · simp only [if_pos h1]
        cases last_write P' cid <;> rfl
      · by_cases h2 : p.2.id = cid
        · simp only [if_neg h1, if_pos h2]
          cases last_write P' cid <;> rfl
        · simp only [if_neg h1, if_neg h2]
          cases last_write P' cid <;> rfl

theorem last_write_cons (p : Channel × Channel) (P : List (Channel × Channel)) (cid : Nat) :
    last_write (p :: P) cid = (last_write P cid).or (swap_write cid none p) := by
  show P.foldl (swap_write cid) (swap_write cid none p) = _
  exact last_write_acc P cid _

theorem fold_swap_channels (P : List (Channel × Channel)) :
    ∀ st : EnforceState, (∀ p ∈ P, p.1.id ≠ p.2.id) →
    (P.foldl apply_swap st).channels =
      st.channels.map (fun c => { c with number := (last_write P c.id).getD c.number }) := by
  induction P with
  | nil =>
      intro st _
      have : ∀ c : Channel, ({ c with number := (last_write [] c.id).getD c.number }) = c :=
        fun c => rfl
      rw [List.map_congr_left (fun c _ => this c)]
      show st.channels = List.map (fun c => c) st.channels
      rw [show (fun c : Channel => c) = id from rfl, List.map_id]
  | cons p P' ih =>
      intro st h
      show (P'.foldl apply_swap (apply_swap st p)).channels = _
      rw [ih (apply_swap st p) (fun q hq => h q (List.mem_cons_of_mem _ hq))]
      have hne := h p (List.mem_cons_self _ _)
      show (set_number (set_number st.channels p.1.id p.2.number) p.2.id p.1.number).map _ = _
      unfold set_number
      rw [List.map_map, List.map_map]
      apply List.map_congr_left
      intro c _
      simp only [Function.comp]
      rw [last_write_cons]
      by_cases h1 : c.id = p.1.id
      · have h2 : ¬ c.id = p.2.id := fun hc => hne (h1 ▸ hc ▸ rfl)
        have hsw : swap_write c.id none p = some p.2.number := by
          unfold swap_write
          rw [if_pos (h1.symm)]
        rw [if_pos h1]
        have h2' : ¬ ({ c with number := p.2.number } : Channel).id = p.2.id := h2
        rw [if_neg h2', hsw]
        cases last_write P' c.id <;> rfl
      · rw [if_neg h1]
        by_cases h2 : c.id = p.2.id
        · have hsw : swap_write c.id none p = some p.1.number := by
            unfold swap_write
            rw [if_neg (fun hh => h1 hh.symm), if_pos h2.symm]
          rw [if_pos h2, hsw]
          cases last_write P' c.id <;> rfl
        · have hsw : swap_write c.id none p = none := by
            unfold swap_write
            rw [if_neg (fun hh => h1 hh.symm), if_neg (fun hh => h2 hh.symm)]
          rw [if_neg h2, hsw]
          cases last_write P' c.id <;> rfl

theorem fold_swap_history (P : List (Channel × Channel)) :
    ∀ st : EnforceState, (P.foldl apply_swap st).history =
      st.history ++ (P.map (fun p =>
        [(⟨p.1.id, "number_swapped", p.1.number, p.2.number⟩ : HistoryRow),
         ⟨p.2.id, "number_swapped", p.2.number, p.1.number⟩])).flatten := by
  induction P with
  | nil =>
      intro st
      simp
  | cons p P' ih =>
      intro st
      show (P'.foldl apply_swap (apply_swap st p)).history = _
      rw [ih (apply_swap st p)]
      show (st.history ++ _) ++ _ = _
      rw [List.map_cons, List.flatten_cons, List.append_assoc]

theorem last_write_some (P : List (Channel × Channel)) (cid : Nat) (v : Int)
    (h : last_write P cid = some v) :
    ∃ p ∈ P, (p.1.id = cid ∧ v = p.2.number) ∨ (p.2.id = cid ∧ v = p.1.number) := by
  induction P with
  | nil => exact absurd h (by simp [last_write])
  | cons p P' ih =>
      rw [last_write_cons] at h
      cases hlw : last_write P' cid with
      | some w =>
          rw [hlw] at h
          have hv : w = v := by
            injection h
          obtain ⟨q, hq, hor⟩ := ih (hv ▸ hlw)
          exact ⟨q, List.mem_cons_of_mem _ hq, hor⟩
      | none =>
          rw [hlw] at h
          simp only [Option.none_or] at h
          unfold swap_write at h
          by_cases h1 : p.1.id = cid
          · rw [if_pos h1] at h
            have : p.2.number = v := by injection h
            exact ⟨p, List.mem_cons_self _ _, Or.inl ⟨h1, this.symm⟩⟩
          · rw [if_neg h1] at h
            by_cases h2 : p.2.id = cid
            · rw [if_pos h2] at h
              have : p.1.number = v := by injection h
              exact ⟨p, List.mem_cons_self _ _, Or.inr ⟨h2, this.symm⟩⟩
            · rw [if_neg h2] at h
              exact absurd h (by simp)

theorem last_write_none (P : List (Channel × Channel)) (cid : Nat)
    (h : ∀ p ∈ P, p.1.id ≠ cid ∧ p.2.id ≠ cid) : last_write P cid = none := by
  induction P with
  | nil => rfl
  | cons p P' ih =>
      rw [last_write_cons]
      rw [ih (fun q hq => h q (List.mem_cons_of_mem _ hq))]
      have hp := h p (List.mem_cons_self _ _)
      unfold swap_write
      rw [if_neg hp.1, if_neg hp.2]
      rfl

theorem last_write_isSome (P : List (Channel × Channel)) (cid : Nat)
    (p : Channel × Channel) (hp : p ∈ P) (h : p.1.id = cid ∨ p.2.id = cid) :
    (last_write P cid).isSome = true := by
  induction P with
  | nil => exact absurd hp (List.not_mem_nil p)
  | cons q P' ih =>
      rw [last_write_cons]
      rcases List.mem_cons.mp hp with rfl | hmem
      · have hsw : (swap_write cid none p).isSome = true := by
          unfold swap_write
          rcases h with h | h
          · rw [if_pos h]
            rfl
          · by_cases h1 : p.1.id = cid
            · rw [if_pos h1]
              rfl
            · rw [if_neg h1, if_pos h]
              rfl
        cases hlw : last_write P' cid <;> simp [hlw] at hsw ⊢ <;> exact hsw
      · have := ih hmem
        cases hlw : last_write P' cid with
        | some w => rfl
        | none => rw [hlw] at this; exact absurd this (by simp)

theorem channel_id_ne_symm : Symmetric (fun a b : Channel => a.id ≠ b.id) :=
  fun _ _ h heq => h heq.symm

theorem channel_eq_of_id (chans : List Channel)
    (hpw : chans.Pairwise (fun a b => a.id ≠ b.id)) (c1 c2 : Channel)
    (h1 : c1 ∈ chans) (h2 : c2 ∈ chans) (h : c1.id = c2.id) : c1 = c2 := by
  by_contra hne
  exact (hpw.forall channel_id_ne_symm h1 h2 hne) h

theorem not_keyword_of_main (c : Channel) (h : is_main_channel c = true) :
    is_keyword_channel c = false := by
  unfold is_main_channel at h
  unfold is_keyword_channel
  cases hk : c.exception_keyword with
  | none => rfl
  | some s =>
      rw [hk] at h
      simp only [decide_eq_true_eq] at h
      simp [h]

theorem find?_id_of_mem (chans : List Channel)
    (hpw : chans.Pairwise (fun a b => a.id ≠ b.id)) (c : Channel) (hc : c ∈ chans) :
    chans.find? (fun x => x.id = c.id) = some c := by
  induction chans with
  | nil => exact absurd hc (List.not_mem_nil c)
  | cons a rest ih =>
      rw [List.find?_cons]
      rcases List.mem_cons.mp hc with rfl | hmem
      · simp
      · have hne : a.id ≠ c.id := (List.pairwise_cons.mp hpw).1 c hmem
        have : (decide (a.id = c.id)) = false := by
          simp [hne]
        rw [this]
        exact ih (List.pairwise_cons.mp hpw).2 hmem

theorem not_main_of_keyword (c : Channel) (h : is_keyword_channel c = true) :
    is_main_channel c = false := by
  unfold is_keyword_channel at h
  unfold is_main_channel
  cases hk : c.exception_keyword with
  | none => rw [hk] at h; exact absurd h (by simp)
  | some s =>
      rw [hk] at h
      simp only [decide_eq_true_eq] at h ⊢
      simp at h ⊢
      exact h

theorem channel_dd_ne_symm : Symmetric (fun a b : Channel => a.dispatcharr_id ≠ b.dispatcharr_id) :=
  fun _ _ h heq => h heq.symm

theorem channel_eq_of_dd (chans : List Channel)
    (hpw : chans.Pairwise (fun a b => a.dispatcharr_id ≠ b.dispatcharr_id)) (c1 c2 : Channel)
    (h1 : c1 ∈ chans) (h2 : c2 ∈ chans) (h : c1.dispatcharr_id = c2.dispatcharr_id) : c1 = c2 := by
  by_contra hne
  exact (hpw.forall channel_dd_ne_symm h1 h2 hne) h

/-- The last number written to the downstream manager for Dispatcharr id
`d` by a run over the given pairs. -/
def mgr_write (d : Nat) (acc : Option Int) (p : Channel × Channel) : Option Int :=
  if d = p.2.dispatcharr_id then some p.1.number
  else if d = p.1.dispatcharr_id then some p.2.number
  else acc

def last_write_mgr (P : List (Channel × Channel)) (d : Nat) : Option Int :=
  P.foldl (mgr_write d) none

theorem mgr_write_or (d : Nat) (acc : Option Int) (p : Channel × Channel) :
    mgr_write d acc p = (mgr_write d none p).or acc := by
  unfold mgr_write
  by_cases h2 : d = p.2.dispatcharr_id
  · rw [if_pos h2, if_pos h2]
    rfl
  · rw [if_neg h2, if_neg h2]
    by_cases h1 : d = p.1.dispatcharr_id
    · rw [if_pos h1, if_pos h1]
      rfl
    · rw [if_neg h1, if_neg h1]
      rfl

theorem last_write_mgr_acc (P : List (Channel × Channel)) (d : Nat) :
    ∀ acc, P.foldl (mgr_write d) acc = (last_write_mgr P d).or acc := by
  induction P with
  | nil =>
      intro acc
      simp [last_write_mgr]
  | cons p P' ih =>
      intro acc
      show P'.foldl (mgr_write d) (mgr_write d acc p) = _
      rw [ih (mgr_write d acc p)]
      have hr : last_write_mgr (p :: P') d = (last_write_mgr P' d).or (mgr_write d none p) := by
        show P'.foldl (mgr_write d) (mgr_write d none p) = _
        exact ih (mgr_write d none p)
      rw [hr, mgr_write_or d acc p]
      cases last_write_mgr P' d <;> cases mgr_write d none p <;> rfl

theorem last_write_mgr_cons (p : Channel × Channel) (P : List (Channel × Channel)) (d : Nat) :
    last_write_mgr (p :: P) d = (last_write_mgr P d).or (mgr_write d none p) := by
  show P.foldl (mgr_write d) (mgr_write d none p) = _
  exact last_write_mgr_acc P d _

theorem fold_swap_manager (P : List (Channel × Channel)) :
    ∀ st : EnforceState, ∀ d : Nat,
      (P.foldl apply_swap st).manager d = (last_write_mgr P d).getD (st.manager d) := by
  induction P with
  | nil =>
      intro st d
      rfl
  | cons p P' ih =>
      intro st d
      show (P'.foldl apply_swap (apply_swap st p)).manager d = _
      rw [ih (apply_swap st p) d, last_write_mgr_cons]
      show _ = ((last_write_mgr P' d).or (mgr_write d none p)).getD (st.manager d)
      have hstep : (apply_swap st p).manager d = (mgr_write d none p).getD (st.manager d) := by
        show (if d = p.2.dispatcharr_id then p.1.number
          else if d = p.1.dispatcharr_id then p.2.number else st.manager d) = _
        unfold mgr_write
        by_cases h2 : d = p.2.dispatcharr_id
        · rw [if_pos h2, if_pos h2]
          rfl
        · rw [if_neg h2, if_neg h2]
          by_cases h1 : d = p.1.dispatcharr_id
          · rw [if_pos h1, if_pos h1]
            rfl
          · rw [if_neg h1, if_neg h1]
            rfl
      rw [hstep]
      cases last_write_mgr P' d <;> rfl

theorem last_write_eq_mgr (chans : List Channel)
    (hid : chans.Pairwise (fun a b => a.id ≠ b.id))
    (hdd : chans.Pairwise (fun a b => a.dispatcharr_id ≠ b.dispatcharr_id))
    (P : List (Channel × Channel))
    (hP : ∀ p ∈ P, p.1 ∈ chans ∧ p.2 ∈ chans ∧ p.1.id ≠ p.2.id)
    (c : Channel) (hc : c ∈ chans) :
    last_write P c.id = last_write_mgr P c.dispatcharr_id := by
  induction P with
  | nil => rfl
  | cons p P' ih =>
      rw [last_write_cons, last_write_mgr_cons,
        ih (fun q hq => hP q (List.mem_cons_of_mem _ hq))]
      obtain ⟨hp1, hp2, hpne⟩ := hP p (List.mem_cons_self _ _)
      have hstep : swap_write c.id none p = mgr_write c.dispatcharr_id none p := by
        unfold swap_write mgr_write
        by_cases h1 : p.1.id = c.id
        · have he1 : p.1 = c := channel_eq_of_id chans hid p.1 c hp1 hc h1
          have hd2 : ¬ c.dispatcharr_id = p.2.dispatcharr_id := by
            intro hdeq
            have : c = p.2 := channel_eq_of_dd chans hdd c p.2 hc hp2 hdeq
            exact hpne (by rw [he1, this])
          rw [if_pos h1, if_neg hd2, if_pos (by rw [he1])]
        · rw [if_neg h1]
          by_cases h2 : p.2.id = c.id
          · have he2 : p.2 = c := channel_eq_of_id chans hid p.2 c hp2 hc h2
            rw [if_pos h2, if_pos (by rw [he2])]
          · have hd2 : ¬ c.dispatcharr_id = p.2.dispatcharr_id := by
              intro hdeq
              exact h2 (congrArg Channel.id
                (channel_eq_of_dd chans hdd c p.2 hc hp2 hdeq)).symm
            have hd1 : ¬ c.dispatcharr_id = p.1.dispatcharr_id := by
              intro hdeq
              exact h1 (congrArg Channel.id
                (channel_eq_of_dd chans hdd c p.1 hc hp1 hdeq)).symm
            rw [if_neg h2, if_neg hd2, if_neg hd1]
      rw [hstep]

theorem channel_number_of_map (chans : List Channel) (f : Channel → Channel)
    (hf : ∀ c, (f c).id = c.id) (cid : Nat) :
    channel_number_of (chans.map f) cid =
      (chans.find? (fun c => c.id = cid)).map (fun c => (f c).number) := by
  unfold channel_number_of
  rw [List.find?_map]
  have hcomp : ((fun c : Channel => decide (c.id = cid)) ∘ f) =
      (fun c : Channel => decide (c.id = cid)) := by
    funext c
    simp [Function.comp, hf c]
  rw [hcomp, Option.map_map]
  rfl

theorem enforce_pair_numbers (st : EnforceState)
    (hid : st.channels.Pairwise (fun a b => a.id ≠ b.id))
    (huniq : ∀ c1 ∈ st.channels, ∀ c2 ∈ st.channels, c1.deleted = false → c2.deleted = false →
      is_main_channel c1 = true → is_main_channel c2 = true →
      c1.event_id = c2.event_id → c1.group_id = c2.group_id → c1 = c2)
    (m k : Channel) (hm : m ∈ st.channels) (hk : k ∈ st.channels)
    (hmd : m.deleted = false) (hkd : k.deleted = false)
    (hme : is_main_channel m = true) (hke : is_keyword_channel k = true)
    (hev : m.event_id = k.event_id) (hgr : m.group_id = k.group_id) :
    (last_write (needing_reorder st.channels) m.id).getD m.number ≤
      (last_write (needing_reorder st.channels) k.id).getD k.number ∧
    ((k.number ≠ m.number ∨ ∃ k2 ∈ st.channels, k2.deleted = false ∧
        is_keyword_channel k2 = true ∧ m.event_id = k2.event_id ∧
        m.group_id = k2.group_id ∧ k2.number < m.number) →
      (last_write (needing_reorder st.channels) m.id).getD m.number <
        (last_write (needing_reorder st.channels) k.id).getD k.number) := by
  have hp2m : ∀ p ∈ needing_reorder st.channels, p.2.id ≠ m.id := by
    intro p hp heq
    obtain ⟨_, h2, _, _, _, _, _, h8, _⟩ := (mem_needing_reorder _ _).mp hp
    have he : p.2 = m := channel_eq_of_id st.channels hid p.2 m h2 hm heq
    rw [he] at h8
    have := hme
    rw [not_main_of_keyword m h8] at this
    exact absurd this (by simp)
  have hp1k : ∀ p ∈ needing_reorder st.channels, p.1.id ≠ k.id := by
    intro p hp heq
    obtain ⟨h1, _, _, _, _, _, h7, _, _⟩ := (mem_needing_reorder _ _).mp hp
    have he : p.1 = k := channel_eq_of_id st.channels hid p.1 k h1 hk heq
    rw [he, not_main_of_keyword k hke] at h7
    exact absurd h7 (by simp)
  have hp1m : ∀ p ∈ needing_reorder st.channels, p.1.id = m.id →
      p.2.number < m.number := by
    intro p hp heq
    obtain ⟨h1, _, _, _, _, _, _, _, h9⟩ := (mem_needing_reorder _ _).mp hp
    have he : p.1 = m := channel_eq_of_id st.channels hid p.1 m h1 hm heq
    rw [he] at h9
    exact h9
  have hp2k : ∀ p ∈ needing_reorder st.channels, p.2.id = k.id →
      p.1 = m ∧ k.number < m.number := by
    intro p hp heq
    obtain ⟨h1, h2, h3, _, h5, h6, h7, _, h9⟩ := (mem_needing_reorder _ _).mp hp
    have he2 : p.2 = k := channel_eq_of_id st.channels hid p.2 k h2 hk heq
    have he1 : p.1 = m := by
      apply huniq p.1 h1 m hm (by simpa using h3) hmd h7 hme
      · rw [h5, he2]
        exact hev.symm
      · rw [h6, he2]
        exact hgr.symm
    refine ⟨he1, ?_⟩
    rw [he1, he2] at h9
    exact h9
  cases hlwm : last_write (needing_reorder st.channels) m.id with
  | none =>
      have hnolower : ∀ k2 ∈ st.channels, k2.deleted = false → is_keyword_channel k2 = true →
          m.event_id = k2.event_id → m.group_id = k2.group_id → ¬(k2.number < m.number) := by
        intro k2 hk2 hk2d hk2e hk2ev hk2gr hlt
        have hpair : ((m, k2) : Channel × Channel) ∈ needing_reorder st.channels :=
          (mem_needing_reorder _ _).mpr
            ⟨hm, hk2, by simp [hmd], by simp [hk2d], hk2ev, hk2gr, hme, hk2e, hlt⟩
        have hs := last_write_isSome _ m.id (m, k2) hpair (Or.inl rfl)
        rw [hlwm] at hs
        exact absurd hs (by simp)
      have hknl : ¬(k.number < m.number) := hnolower k hk hkd hke hev hgr
      have hlwk : last_write (needing_reorder st.channels) k.id = none := by
        apply last_write_none
        intro p hp
        refine ⟨hp1k p hp, ?_⟩
        intro heq
        exact hknl (hp2k p hp heq).2
      rw [hlwk]
      constructor
      · show m.number ≤ k.number
        omega
      · intro hd
        show m.number < k.number
        rcases hd with hne | ⟨k2, hk2, hk2d, hk2e, hk2ev, hk2gr, hlt⟩
        · omega
        · exact absurd hlt (hnolower k2 hk2 hk2d hk2e hk2ev hk2gr)
  | some v =>
      obtain ⟨p, hp, hor⟩ := last_write_some _ _ _ hlwm
      rcases hor with ⟨hpid, hv⟩ | ⟨hpid, _⟩
      · have hvm : v < m.number := by
          rw [hv]
          exact hp1m p hp hpid
        cases hlwk : last_write (needing_reorder st.channels) k.id with
        | none =>
            have hmk : ¬(k.number < m.number) := by
              intro hlt2
              have hpair : ((m, k) : Channel × Channel) ∈ needing_reorder st.channels :=
                (mem_needing_reorder _ _).mpr
                  ⟨hm, hk, by simp [hmd], by simp [hkd], hev, hgr, hme, hke, hlt2⟩
              have hs := last_write_isSome _ k.id (m, k) hpair (Or.inr rfl)
              rw [hlwk] at hs
              exact absurd hs (by simp)
            constructor
            · show v ≤ k.number
              omega
            · intro _
              show v < k.number
              omega
        | some w =>
            obtain ⟨q, hq, hor2⟩ := last_write_some _ _ _ hlwk
            rcases hor2 with ⟨hqid, _⟩ | ⟨hqid, hw⟩
            · exact absurd hqid (hp1k q hq)
            · have hwm : w = m.number := by
                rw [hw, (hp2k q hq hqid).1]
              constructor
              · show v ≤ w
                omega
              · intro _
                show v < w
                omega
      · exact absurd hpid (hp2m p hp)

/-- **C7**: for every event having both an active main channel and keyword-variant
channels (same `event_id` and EPG group, non-deleted, with ids and Dispatcharr ids
distinct across rows and at most one active main per event/group), a successful
run of `KeywordOrderingEnforcer.enforce` leaves the main channel with a number at
most each variant's — strictly lower provided that variant did not tie the main's
number, or some variant sat below the main; swaps are applied consistently to the
database and the downstream manager (any agreement between the two is preserved),
and each swapped pair logs one `channel_history` row per channel; re-running
`enforce` immediately afterwards finds no pairs and is a no-op. -/
theorem keyword_ordering_enforce_correct (st : EnforceState)
    (hid : st.channels.Pairwise (fun a b => a.id ≠ b.id))
    (hdd : st.channels.Pairwise (fun a b => a.dispatcharr_id ≠ b.dispatcharr_id))
    (huniq : ∀ c1 ∈ st.channels, ∀ c2 ∈ st.channels, c1.deleted = false → c2.deleted = false →
      is_main_channel c1 = true → is_main_channel c2 = true →
      c1.event_id = c2.event_id → c1.group_id = c2.group_id → c1 = c2) :
    (∀ m ∈ st.channels, ∀ k ∈ st.channels, m.deleted = false → k.deleted = false →
      is_main_channel m = true → is_keyword_channel k = true →
      m.event_id = k.event_id → m.group_id = k.group_id →
      ∃ a b, channel_number_of (enforce st).channels m.id = some a ∧
        channel_number_of (enforce st).channels k.id = some b ∧ a ≤ b ∧
        ((k.number ≠ m.number ∨ ∃ k2 ∈ st.channels, k2.deleted = false ∧
            is_keyword_channel k2 = true ∧ m.event_id = k2.event_id ∧
            m.group_id = k2.group_id ∧ k2.number < m.number) → a < b)) ∧
    needing_reorder (enforce st).channels = [] ∧
    enforce (enforce st) = enforce st ∧
    ((∀ c ∈ st.channels, st.manager c.dispatcharr_id = c.number) →
      ∀ c ∈ (enforce st).channels, (enforce st).manager c.dispatcharr_id = c.number) ∧
    (enforce st).history = st.history ++
      ((needing_reorder st.channels).map (fun p =>
        [(⟨p.1.id, "number_swapped", p.1.number, p.2.number⟩ : HistoryRow),
         ⟨p.2.id, "number_swapped", p.2.number, p.1.number⟩])).flatten := by
  have hPne : ∀ p ∈ needing_reorder st.channels, p.1.id ≠ p.2.id := by
    intro p hp heq
    obtain ⟨h1, h2, _, _, _, _, h7, h8, _⟩ := (mem_needing_reorder _ _).mp hp
    have he : p.1 = p.2 := channel_eq_of_id st.channels hid p.1 p.2 h1 h2 heq
    rw [he, not_main_of_keyword p.2 h8] at h7
    exact absurd h7 (by simp)
  have hch : (enforce st).channels = st.channels.map
      (fun c => { c with
        number := (last_write (needing_reorder st.channels) c.id).getD c.number }) :=
    fold_swap_channels _ st hPne
  have part1 : ∀ m ∈ st.channels, ∀ k ∈ st.channels,
      m.deleted = false → k.deleted = false →
      is_main_channel m = true → is_keyword_channel k = true →
      m.event_id = k.event_id → m.group_id = k.group_id →
      ∃ a b, channel_number_of (enforce st).channels m.id = some a ∧
        channel_number_of (enforce st).channels k.id = some b ∧ a ≤ b ∧
        ((k.number ≠ m.number ∨ ∃ k2 ∈ st.channels, k2.deleted = false ∧
            is_keyword_channel k2 = true ∧ m.event_id = k2.event_id ∧
            m.group_id = k2.group_id ∧ k2.number < m.number) → a < b) := by
    intro m hm k hk hmd hkd hme hke hev hgr
    have hnum := enforce_pair_numbers st hid huniq m k hm hk hmd hkd hme hke hev hgr
    refine ⟨(last_write (needing_reorder st.channels) m.id).getD m.number,
      (last_write (needing_reorder st.channels) k.id).getD k.number,
      ?_, ?_, hnum.1, hnum.2⟩
    · rw [hch, channel_number_of_map st.channels
          (fun c => { c with
            number := (last_write (needing_reorder st.channels) c.id).getD c.number })
          (fun c => rfl) m.id,
        find?_id_of_mem st.channels hid m hm]
      rfl
    · rw [hch, channel_number_of_map st.channels
          (fun c => { c with
            number := (last_write (needing_reorder st.channels) c.id).getD c.number })
          (fun c => rfl) k.id,
        find?_id_of_mem st.channels hid k hk]
      rfl
  have part2 : needing_reorder (enforce st).channels = [] := by
    rw [List.eq_nil_iff_forall_not_mem]
    intro p hp
    obtain ⟨h1, h2, h3, h4, h5, h6, h7, h8, h9⟩ := (mem_needing_reorder _ _).mp hp
    rw [hch] at h1 h2
    obtain ⟨m0, hm0, he1⟩ := List.mem_map.mp h1
    obtain ⟨k0, hk0, he2⟩ := List.mem_map.mp h2
    have hm0d : m0.deleted = false := by
      have hx : p.1.deleted = false := by simpa using h3
      rw [← he1] at hx
      exact hx
    have hk0d : k0.deleted = false := by
      have hx : p.2.deleted = false := by simpa using h4
      rw [← he2] at hx
      exact hx
    have hm0e : is_main_channel m0 = true := by
      rw [← he1] at h7
      exact h7
    have hk0e : is_keyword_channel k0 = true := by
      rw [← he2] at h8
      exact h8
    have hev0 : m0.event_id = k0.event_id := by
      rw [← he1, ← he2] at h5
      exact h5
    have hgr0 : m0.group_id = k0.group_id := by
      rw [← he1, ← he2] at h6
      exact h6
    have hnum := enforce_pair_numbers st hid huniq m0 k0 hm0 hk0 hm0d hk0d hm0e hk0e hev0 hgr0
    rw [← he1, ← he2] at h9
    exact absurd h9 (not_lt.mpr hnum.1)
  have part3 : enforce (enforce st) = enforce st := by
    show (needing_reorder (enforce st).channels).foldl apply_swap (enforce st) = enforce st
    rw [part2]
    rfl
  have part4 : (∀ c ∈ st.channels, st.manager c.dispatcharr_id = c.number) →
      ∀ c ∈ (enforce st).channels, (enforce st).manager c.dispatcharr_id = c.number := by
    intro hag c hc
    rw [hch] at hc
    obtain ⟨c0, hc0, he⟩ := List.mem_map.mp hc
    have hPmem : ∀ p ∈ needing_reorder st.channels,
        p.1 ∈ st.channels ∧ p.2 ∈ st.channels ∧ p.1.id ≠ p.2.id := by
      intro p hp
      obtain ⟨h1, h2, _, _, _, _, _, _, _⟩ := (mem_needing_reorder _ _).mp hp
      exact ⟨h1, h2, hPne p hp⟩
    have hdd0 : c.dispatcharr_id = c0.dispatcharr_id := by
      rw [← he]
    have hmgr : (enforce st).manager c.dispatcharr_id =
        (last_write_mgr (needing_reorder st.channels) c.dispatcharr_id).getD
          (st.manager c.dispatcharr_id) :=
      fold_swap_manager _ st _
    rw [hmgr, hdd0,
      ← last_write_eq_mgr st.channels hid hdd _ hPmem c0 hc0,
      hag c0 hc0, ← he]
  exact ⟨part1, part2, part3, part4, fold_swap_history _ st⟩

def tie_main : Channel := ⟨1, "e1", 1, 10, none, false, 101⟩

def tie_kw : Channel := ⟨2, "e1", 1, 10, some "spanish", false, 102⟩

def tie_st : EnforceState := ⟨[tie_main, tie_kw], fun _ => 0, []⟩

/-- A main channel whose number ties its keyword variant's is not swapped:
after `enforce` the main's number is not strictly lower than the variant's,
refuting the unconditional "leaves the main channel with a lower channel
number than the variant". -/
theorem keyword_ordering_tie_counterexample :
    is_main_channel tie_main = true ∧ is_keyword_channel tie_kw = true ∧
    tie_main.deleted = false ∧ tie_kw.deleted = false ∧
    tie_main.event_id = tie_kw.event_id ∧ tie_main.group_id = tie_kw.group_id ∧
    channel_number_of (enforce tie_st).channels tie_main.id = some 10 ∧
    channel_number_of (enforce tie_st).channels tie_kw.id = some 10 ∧
    ¬((10 : Int) < 10) :=
  ⟨rfl, by decide, rfl, rfl, rfl, rfl, rfl, rfl, by decide⟩

def enf_main : Channel := ⟨1, "e1", 1, 10, none, false, 101⟩

def enf_kw : Channel := ⟨2, "e1", 1, 5, some "spanish", false, 102⟩

def enf_st : EnforceState := ⟨[enf_main, enf_kw], fun _ => 0, []⟩

theorem keyword_ordering_enforce_correct_witness :
    enf_st.channels.Pairwise (fun a b => a.id ≠ b.id) ∧
    enf_st.channels.Pairwise (fun a b => a.dispatcharr_id ≠ b.dispatcharr_id) ∧
    (∀ c1 ∈ enf_st.channels, ∀ c2 ∈ enf_st.channels,
      c1.deleted = false → c2.deleted = false →
      is_main_channel c1 = true → is_main_channel c2 = true →
      c1.event_id = c2.event_id → c1.group_id = c2.group_id → c1 = c2) ∧
    ((∀ m ∈ enf_st.channels, ∀ k ∈ enf_st.channels, m.deleted = false → k.deleted = false →
      is_main_channel m = true → is_keyword_channel k = true →
      m.event_id = k.event_id → m.group_id = k.group_id →
      ∃ a b, channel_number_of (enforce enf_st).channels m.id = some a ∧
        channel_number_of (enforce enf_st).channels k.id = some b ∧ a ≤ b ∧
        ((k.number ≠ m.number ∨ ∃ k2 ∈ enf_st.channels, k2.deleted = false ∧
            is_keyword_channel k2 = true ∧ m.event_id = k2.event_id ∧
            m.group_id = k2.group_id ∧ k2.number < m.number) → a < b)) ∧
    needing_reorder (enforce enf_st).channels = [] ∧
    enforce (enforce enf_st) = enforce enf_st ∧
    ((∀ c ∈ enf_st.channels, enf_st.manager c.dispatcharr_id = c.number) →
      ∀ c ∈ (enforce enf_st).channels, (enforce enf_st).manager c.dispatcharr_id = c.number) ∧
    (enforce enf_st).history = enf_st.history ++
      ((needing_reorder enf_st.channels).map (fun p =>
        [(⟨p.1.id, "number_swapped", p.1.number, p.2.number⟩ : HistoryRow),
         ⟨p.2.id, "number_swapped", p.2.number, p.1.number⟩])).flatten) :=
  ⟨by decide, by decide, by decide,
   keyword_ordering_enforce_correct enf_st (by decide) (by decide) (by decide)⟩

/-! ## Per-team EPG timeline: games plus filler, sorted
(`src/epg/orchestrator.py`: `_process_team_schedule`, `_generate_filler_entries`,
`_get_next_time_block`, `_create_filler_chunks`)

Times are minutes in the EPG timezone, counted from an epoch falling on a local
midnight, so a calendar date is a quotient by 1440 and the 6-hour blocks sit at
multiples of 360.  A game event carries its `start_datetime`/`end_datetime`
pair; a programme is a game or filler interval with its filler type. -/

structure Game where
  gs : Nat
  ge : Nat
deriving Repr, DecidableEq

structure Programme where
  start_dt : Nat
  end_dt : Nat
  kind : String
deriving Repr, DecidableEq

/-- `.date()` of a timestamp. -/
def day_of (t : Nat) : Nat := t / 1440

/-- `_get_next_time_block`: the next 6-hour boundary (0000/0600/1200/1800),
strictly after `t` (an exact boundary advances to the following one). -/
def next_time_block (t : Nat) : Nat := 360 * (t / 360 + 1)

/-- `_create_filler_chunks` loop body; the fuel is the initial `e - cur`,
enough since every chunk strictly advances `cur`. -/
def filler_chunks_go : Nat → Nat → Nat → String → List Programme
  | 0, _, _, _ => []
  | Nat.succ fuel, cur, e, kind =>
      if cur < e then
        ⟨cur, min (next_time_block cur) e, kind⟩ ::
          filler_chunks_go fuel (min (next_time_block cur) e) e kind
      else []

/-- `_create_filler_chunks`: tile `[s, e)` with chunks ending at 6-hour
boundaries (`chunk_end = min(next_block, end_dt)`). -/
def create_filler_chunks (s e : Nat) (kind : String) : List Programme :=
  filler_chunks_go (e - s) s e kind

/-- Comparison key `lambda x: x['start']` on games. -/
def gle (a b : Game) : Prop := a.gs ≤ b.gs

instance : DecidableRel gle := fun a b => inferInstanceAs (Decidable (a.gs ≤ b.gs))

instance : IsTotal Game gle := ⟨fun a b => Nat.le_total a.gs b.gs⟩

instance : IsTrans Game gle := ⟨fun _ _ _ => Nat.le_trans⟩

/-- `sorted(games, key=lambda x: x['start'])` (stable). -/
def sorted_by_start (l : List Game) : List Game := l.insertionSort gle

/-- `game_schedule[current_date]`: the games whose local start date is `D`. -/
def games_on (games : List Game) (D : Nat) : List Game :=
  games.filter (fun g => day_of g.gs = D)

/-- The end of `sorted(prev_games, key=lambda x: x['end'])[-1]`: the greatest
end time among the day's games (0 when there are none). -/
def max_end (l : List Game) : Nat := l.foldl (fun acc g => max acc g.ge) 0

structure FillerCfg where
  pregame_enabled : Bool
  postgame_enabled : Bool
  idle_enabled : Bool
  midnight_mode : String

/-- `day_start`: the EPG start instant on the first day, local midnight after. -/
def day_lo (fds sd d : Nat) : Nat := if d = 0 then fds else (sd + d) * 1440

/-- The `skip_pregame` / `skip_idle` test: the previous day has games and its
latest-ending one runs past `day_start`. -/
def skip_cross (games : List Game) (sd fds d : Nat) : Bool :=
  !(games_on games (sd + d - 1)).isEmpty &&
    decide (day_lo fds sd d < max_end (games_on games (sd + d - 1)))

/-- Pregame filler on a game day (midnight/EPG start to the first game), idle
filler on an empty day (midnight to midnight); both skipped when the previous
day's game crosses into today. -/
def day_pre (cfg : FillerCfg) (games : List Game) (sd fds d : Nat) : List Programme :=
  match sorted_by_start (games_on games (sd + d)) with
  | [] =>
      if !skip_cross games sd fds d && cfg.idle_enabled then
        create_filler_chunks (day_lo fds sd d) ((sd + d + 1) * 1440) "idle"
      else []
  | g0 :: _ =>
      if cfg.pregame_enabled then
        if !skip_cross games sd fds d && decide (day_lo fds sd d < g0.gs) then
          create_filler_chunks (day_lo fds sd d) g0.gs "pregame"
        else []
      else []

/-- Postgame filler on a game day, from the end of the last game (by start
time) to midnight; a game crossing midnight instead fills to the next day's
first game (pregame) or, with no game next day, to the following midnight per
`midnight_crossover_mode`. -/
def day_post (cfg : FillerCfg) (games : List Game) (sd _fds d : Nat) : List Programme :=
  match sorted_by_start (games_on games (sd + d)) with
  | [] => []
  | g0 :: rest =>
      if cfg.postgame_enabled then
        if decide ((sd + d + 1) * 1440 < (rest.getLastD g0).ge) then
          match sorted_by_start (games_on games (sd + d + 1)) with
          | [] =>
              if cfg.midnight_mode = "postgame" then
                create_filler_chunks (rest.getLastD g0).ge
                  ((sd + d + 1) * 1440 + 1440) "postgame"
              else if cfg.midnight_mode = "idle" then
                if cfg.idle_enabled then
                  create_filler_chunks (rest.getLastD g0).ge
                    ((sd + d + 1) * 1440 + 1440) "idle"
                else []
              else []
          | h0 :: _ =>
              if decide ((rest.getLastD g0).ge < h0.gs) then
                create_filler_chunks (rest.getLastD g0).ge h0.gs "pregame"
              else []
        else
          if decide ((rest.getLastD g0).ge < (sd + d + 1) * 1440) then
            create_filler_chunks (rest.getLastD g0).ge ((sd + d + 1) * 1440) "postgame"
          else []
      else []

/-- One iteration of the `_generate_filler_entries` day loop: pregame (or idle)
entries, then postgame entries. -/
def day_fillers (cfg : FillerCfg) (games : List Game) (sd fds d : Nat) : List Programme :=
  day_pre cfg games sd fds d ++ day_post cfg games sd fds d

/-- `_generate_filler_entries`: the day loop over the EPG window. -/
def generate_filler_entries (cfg : FillerCfg) (games : List Game)
    (fds days_ahead : Nat) : List Programme :=
  ((List.range days_ahead).map (day_fillers cfg games (day_of fds) fds)).flatten

def game_programme (g : Game) : Programme := ⟨g.gs, g.ge, "game"⟩

/-- Comparison key `lambda x: x['start_datetime']` on programmes. -/
def ple (a b : Programme) : Prop := a.start_dt ≤ b.start_dt

instance : DecidableRel ple := fun a b => inferInstanceAs (Decidable (a.start_dt ≤ b.start_dt))

instance : IsTotal Programme ple := ⟨fun a b => Nat.le_total a.start_dt b.start_dt⟩

instance : IsTrans Programme ple := ⟨fun _ _ _ => Nat.le_trans⟩

/-- Tail of `_process_team_schedule`: combine processed games with filler and
sort by `start_datetime` (stably). -/
def process_team_schedule (cfg : FillerCfg) (games : List Game)
    (fds days_ahead : Nat) : List Programme :=
  List.insertionSort ple (games.map game_programme ++
    generate_filler_entries cfg games fds days_ahead)

/-- Two programmes occupy disjoint time ranges. -/
def PDisj (a b : Programme) : Prop := a.end_dt ≤ b.start_dt ∨ b.end_dt ≤ a.start_dt

/-- Inputs as produced by the upstream pipeline: proper intervals, starting
inside the EPG window, pairwise non-overlapping, each spanning at most one
midnight, with the window starting after day 0. -/
structure NiceInput (games : List Game) (fds : Nat) : Prop where
  proper : ∀ g ∈ games, g.gs < g.ge
  win : ∀ g ∈ games, fds ≤ g.gs
  span : ∀ g ∈ games, g.ge ≤ (day_of g.gs + 2) * 1440
  disj : games.Pairwise (fun a b => a.ge ≤ b.gs ∨ b.ge ≤ a.gs)
  sd_pos : 1 ≤ day_of fds

theorem pdisj_symm : Symmetric PDisj := fun _ _ h => h.symm

theorem next_time_block_gt (t : Nat) : t < next_time_block t := by
  unfold next_time_block
  have h1 := Nat.div_add_mod t 360
  have h2 : t % 360 < 360 := Nat.mod_lt t (by decide)
  omega

theorem chunks_go_bounds (fuel : Nat) : ∀ cur e kind p,
    p ∈ filler_chunks_go fuel cur e kind →
    cur ≤ p.start_dt ∧ p.end_dt ≤ e ∧ p.start_dt < p.end_dt := by
  induction fuel with
  | zero =>
      intro cur e kind p hp
      exact absurd hp (List.not_mem_nil p)
  | succ fuel ih =>
      intro cur e kind p hp
      unfold filler_chunks_go at hp
      by_cases h : cur < e
      · rw [if_pos h] at hp
        rcases List.mem_cons.mp hp with rfl | hp'
        · refine ⟨Nat.le_refl _, min_le_right _ _, ?_⟩
          have := next_time_block_gt cur
          have : cur < min (next_time_block cur) e := lt_min this h
          exact this
        · have := ih _ _ _ _ hp'
          have hcur : cur < min (next_time_block cur) e :=
            lt_min (next_time_block_gt cur) h
          exact ⟨Nat.le_trans (Nat.le_of_lt hcur) this.1, this.2.1, this.2.2⟩
      · rw [if_neg h] at hp
        exact absurd hp (List.not_mem_nil p)

theorem chunks_go_pairwise (fuel : Nat) : ∀ cur e kind,
    (filler_chunks_go fuel cur e kind).Pairwise PDisj := by
  induction fuel with
  | zero => intro cur e kind; exact List.Pairwise.nil
  | succ fuel ih =>
      intro cur e kind
      unfold filler_chunks_go
      by_cases h : cur < e
      · rw [if_pos h]
        refine List.pairwise_cons.mpr ⟨?_, ih _ _ _⟩
        intro p hp
        exact Or.inl (chunks_go_bounds fuel _ _ _ p hp).1
      · rw [if_neg h]
        exact List.Pairwise.nil

theorem chunks_bounds (s e : Nat) (kind : String) (p : Programme)
    (hp : p ∈ create_filler_chunks s e kind) :
    s ≤ p.start_dt ∧ p.end_dt ≤ e ∧ p.start_dt < p.end_dt :=
  chunks_go_bounds _ _ _ _ _ hp

theorem chunks_pairwise (s e : Nat) (kind : String) :
    (create_filler_chunks s e kind).Pairwise PDisj :=
  chunks_go_pairwise _ _ _ _

theorem day_of_bounds (t : Nat) :
    day_of t * 1440 ≤ t ∧ t < (day_of t + 1) * 1440 := by
  unfold day_of
  have h1 := Nat.div_add_mod t 1440
  have h2 : t % 1440 < 1440 := Nat.mod_lt t (by decide)
  omega

theorem mem_games_on (games : List Game) (D : Nat) (g : Game) :
    g ∈ games_on games D ↔ g ∈ games ∧ day_of g.gs = D := by
  unfold games_on
  rw [List.mem_filter]
  simp

theorem games_on_bounds (games : List Game) (D : Nat) (g : Game)
    (hg : g ∈ games_on games D) : D * 1440 ≤ g.gs ∧ g.gs < (D + 1) * 1440 := by
  have hd := ((mem_games_on games D g).mp hg).2
  have := day_of_bounds g.gs
  rw [hd] at this
  exact this

theorem mem_sorted_by_start (l : List Game) (g : Game) :
    g ∈ sorted_by_start l ↔ g ∈ l :=
  (List.perm_insertionSort gle l).mem_iff

theorem sorted_sorted_by_start (l : List Game) : (sorted_by_start l).Sorted gle :=
  List.sorted_insertionSort gle l

theorem getLastD_mem : ∀ (rest : List Game) (g0 : Game), rest.getLastD g0 ∈ g0 :: rest := by
  intro rest
  induction rest with
  | nil => intro g0; exact List.mem_cons_self _ _
  | cons g1 r ih =>
      intro g0
      rw [List.getLastD_cons g0 g1 r]
      exact List.mem_cons_of_mem _ (ih g1)

theorem sorted_getLastD : ∀ (rest : List Game) (g0 : Game),
    List.Sorted gle (g0 :: rest) → ∀ g ∈ g0 :: rest, gle g (rest.getLastD g0) := by
  intro rest
  induction rest with
  | nil =>
      intro g0 _ g hg
      rcases List.mem_cons.mp hg with rfl | h
      · exact Nat.le_refl _
      · exact absurd h (List.not_mem_nil g)
  | cons g1 r ih =>
      intro g0 hs g hg
      rw [List.getLastD_cons g0 g1 r]
      have hs' : List.Sorted gle (g1 :: r) := (List.sorted_cons.mp hs).2
      rcases List.mem_cons.mp hg with rfl | h
      · have h01 : gle g g1 := (List.sorted_cons.mp hs).1 g1 (List.mem_cons_self _ _)
        exact Nat.le_trans h01 (ih g1 hs' g1 (List.mem_cons_self _ _))
      · exact ih g1 hs' g h

theorem le_max_end_aux (l : List Game) : ∀ init,
    init ≤ l.foldl (fun acc g => max acc g.ge) init ∧
    ∀ g ∈ l, g.ge ≤ l.foldl (fun acc g => max acc g.ge) init := by
  induction l with
  | nil =>
      intro init
      exact ⟨Nat.le_refl _, fun g hg => absurd hg (List.not_mem_nil g)⟩
  | cons a t ih =>
      intro init
      have h := ih (max init a.ge)
      refine ⟨Nat.le_trans (Nat.le_max_left _ _) h.1, ?_⟩
      intro g hg
      rcases List.mem_cons.mp hg with rfl | hg'
      · exact Nat.le_trans (Nat.le_max_right _ _) h.1
      · exact h.2 g hg'

theorem le_max_end (l : List Game) (g : Game) (hg : g ∈ l) : g.ge ≤ max_end l :=
  (le_max_end_aux l 0).2 g hg

theorem day_lo_ge (fds d : Nat) : (day_of fds + d) * 1440 ≤ day_lo fds (day_of fds) d := by
  unfold day_lo
  by_cases h : d = 0
  · rw [if_pos h, h]
    simpa using (day_of_bounds fds).1
  · rw [if_neg h]

theorem day_lo_lt (fds d : Nat) : day_lo fds (day_of fds) d < (day_of fds + d + 1) * 1440 := by
  unfold day_lo
  by_cases h : d = 0
  · rw [if_pos h, h]
    simpa using (day_of_bounds fds).2
  · rw [if_neg h]
    have h0 : 0 < 1440 := by decide
    exact (Nat.mul_lt_mul_right h0).mpr (Nat.lt_succ_self (day_of fds + d))

theorem mem_day_pre (cfg : FillerCfg) (games : List Game) (sd fds d : Nat) (p : Programme)
    (hp : p ∈ day_pre cfg games sd fds d) :
    skip_cross games sd fds d = false ∧
    day_lo fds sd d ≤ p.start_dt ∧ p.start_dt < p.end_dt ∧
    ((sorted_by_start (games_on games (sd + d)) = [] ∧
        p.end_dt ≤ (sd + d + 1) * 1440) ∨
     (∃ g0 rest, sorted_by_start (games_on games (sd + d)) = g0 :: rest ∧
        day_lo fds sd d < g0.gs ∧ p.end_dt ≤ g0.gs)) := by
  unfold day_pre at hp
  split at hp
  · rename_i heq
    split_ifs at hp with hc
    · simp only [Bool.and_eq_true, Bool.not_eq_true'] at hc
      have hb := chunks_bounds _ _ _ _ hp
      exact ⟨hc.1, hb.1, hb.2.2, Or.inl ⟨heq, hb.2.1⟩⟩
    · exact absurd hp (List.not_mem_nil p)
  · rename_i g0 rest heq
    split_ifs at hp with h1 hc
    · simp only [Bool.and_eq_true, Bool.not_eq_true', decide_eq_true_eq] at hc
      have hb := chunks_bounds _ _ _ _ hp
      exact ⟨hc.1, hb.1, hb.2.2, Or.inr ⟨g0, rest, heq, hc.2, hb.2.1⟩⟩
    · exact absurd hp (List.not_mem_nil p)
    · exact absurd hp (List.not_mem_nil p)

theorem mem_day_post (cfg : FillerCfg) (games : List Game) (sd fds d : Nat) (p : Programme)
    (hp : p ∈ day_post cfg games sd fds d) :
    ∃ g0 rest, sorted_by_start (games_on games (sd + d)) = g0 :: rest ∧
      (rest.getLastD g0).ge ≤ p.start_dt ∧ p.start_dt < p.end_dt ∧
      (((sd + d + 1) * 1440 < (rest.getLastD g0).ge ∧
         ((sorted_by_start (games_on games (sd + d + 1)) = [] ∧
            p.end_dt ≤ (sd + d + 1) * 1440 + 1440) ∨
          (∃ h0 rest2, sorted_by_start (games_on games (sd + d + 1)) = h0 :: rest2 ∧
            (rest.getLastD g0).ge < h0.gs ∧ p.end_dt ≤ h0.gs))) ∨
       ((rest.getLastD g0).ge ≤ (sd + d + 1) * 1440 ∧
         p.end_dt ≤ (sd + d + 1) * 1440)) := by
  unfold day_post at hp
  split at hp
  · exact absurd hp (List.not_mem_nil p)
  · rename_i g0 rest heq
    refine ⟨g0, rest, heq, ?_⟩
    split at hp
    · split at hp
      · rename_i h2
        rw [decide_eq_true_eq] at h2
        split at hp
        · rename_i heq2
          split at hp
          · have hb := chunks_bounds _ _ _ _ hp
            exact ⟨hb.1, hb.2.2, Or.inl ⟨h2, Or.inl ⟨heq2, hb.2.1⟩⟩⟩
          · split at hp
            · split at hp
              · have hb := chunks_bounds _ _ _ _ hp
                exact ⟨hb.1, hb.2.2, Or.inl ⟨h2, Or.inl ⟨heq2, hb.2.1⟩⟩⟩
              · exact absurd hp (List.not_mem_nil p)
            · exact absurd hp (List.not_mem_nil p)
        · rename_i h0 rest2 heq2
          split at hp
          · rename_i h3
            rw [decide_eq_true_eq] at h3
            have hb := chunks_bounds _ _ _ _ hp
            exact ⟨hb.1, hb.2.2, Or.inl ⟨h2, Or.inr ⟨h0, rest2, heq2, h3, hb.2.1⟩⟩⟩
          · exact absurd hp (List.not_mem_nil p)
      · split at hp
        · rename_i h3
          rw [decide_eq_true_eq] at h3
          have hb := chunks_bounds _ _ _ _ hp
          exact ⟨hb.1, hb.2.2, Or.inr ⟨Nat.le_of_lt h3, hb.2.1⟩⟩
        · exact absurd hp (List.not_mem_nil p)
    · exact absurd hp (List.not_mem_nil p)

theorem day_pre_pairwise (cfg : FillerCfg) (games : List Game) (sd fds d : Nat) :
    (day_pre cfg games sd fds d).Pairwise PDisj := by
  unfold day_pre
  split <;> split_ifs <;> first | exact chunks_pairwise _ _ _ | exact List.Pairwise.nil

theorem day_post_pairwise (cfg : FillerCfg) (games : List Game) (sd fds d : Nat) :
    (day_post cfg games sd fds d).Pairwise PDisj := by
  unfold day_post
  split
  · exact List.Pairwise.nil
  · split_ifs <;>
      first
      | exact List.Pairwise.nil
      | exact chunks_pairwise _ _ _
      | (split <;>
          first
          | exact List.Pairwise.nil
          | exact chunks_pairwise _ _ _
          | (split_ifs <;>
              first | exact List.Pairwise.nil | exact chunks_pairwise _ _ _))

theorem gdisj_symm : Symmetric (fun a b : Game => a.ge ≤ b.gs ∨ b.ge ≤ a.gs) :=
  fun _ _ h => h.symm

theorem day_last_facts (games : List Game) (fds : Nat) (h : NiceInput games fds)
    (D : Nat) (g0 : Game) (rest : List Game)
    (hS : sorted_by_start (games_on games D) = g0 :: rest) :
    rest.getLastD g0 ∈ games_on games D ∧
    (∀ g ∈ games_on games D, g.gs ≤ (rest.getLastD g0).gs) ∧
    (∀ g ∈ games_on games D, g.ge ≤ (rest.getLastD g0).ge) := by
  have hsorted : List.Sorted gle (g0 :: rest) := by
    rw [← hS]
    exact sorted_sorted_by_start _
  have hLS : rest.getLastD g0 ∈ g0 :: rest := getLastD_mem rest g0
  have hLmem : rest.getLastD g0 ∈ games_on games D := by
    rw [← mem_sorted_by_start, hS]
    exact hLS
  refine ⟨hLmem, ?_, ?_⟩
  · intro g hg
    have hgS : g ∈ g0 :: rest := by
      rw [← hS, mem_sorted_by_start]
      exact hg
    exact sorted_getLastD rest g0 hsorted g hgS
  · intro g hg
    have hgs : g.gs ≤ (rest.getLastD g0).gs := by
      have hgS : g ∈ g0 :: rest := by
        rw [← hS, mem_sorted_by_start]
        exact hg
      exact sorted_getLastD rest g0 hsorted g hgS
    by_cases hgt : g = rest.getLastD g0
    · rw [hgt]
    · have hgg : g ∈ games := ((mem_games_on _ _ _).mp hg).1
      have hLg : rest.getLastD g0 ∈ games := ((mem_games_on _ _ _).mp hLmem).1
      have hdisj := h.disj.forall gdisj_symm hgg hLg hgt
      have hLproper := h.proper _ hLg
      rcases hdisj with h1 | h1
      · omega
      · omega

theorem day_filler_game_disj (cfg : FillerCfg) (games : List Game) (fds : Nat)
    (h : NiceInput games fds) (d : Nat) (p : Programme)
    (hp : p ∈ day_fillers cfg games (day_of fds) fds d)
    (g : Game) (hg : g ∈ games) :
    g.ge ≤ p.start_dt ∨ p.end_dt ≤ g.gs := by
  rcases List.mem_append.mp hp with hpre | hpost
  · obtain ⟨hskip, hlo, hpr, hcase⟩ := mem_day_pre cfg games (day_of fds) fds d p hpre
    have hlo_ge : (day_of fds + d) * 1440 ≤ day_lo fds (day_of fds) d := day_lo_ge fds d
    rcases Nat.lt_trichotomy (day_of g.gs) (day_of fds + d) with hDg | hDg | hDg
    · left
      by_cases hprev : day_of g.gs + 1 = day_of fds + d
      · have hgprev : g ∈ games_on games (day_of fds + d - 1) := by
          rw [mem_games_on]
          exact ⟨hg, by omega⟩
        unfold skip_cross at hskip
        rw [Bool.and_eq_false_iff] at hskip
        rcases hskip with hskip | hskip
        · rw [Bool.not_eq_false'] at hskip
          rw [List.isEmpty_iff] at hskip
          rw [hskip] at hgprev
          exact absurd hgprev (List.not_mem_nil g)
        · have hle : max_end (games_on games (day_of fds + d - 1)) ≤ day_lo fds (day_of fds) d := by
            have := of_decide_eq_false hskip
            omega
          have := le_max_end _ g hgprev
          omega
      · have hsp := h.span g hg
        omega
    · rcases hcase with ⟨hnil, _⟩ | ⟨g0, rest, hS, hlt, hend⟩
      · exfalso
        have hmem : g ∈ sorted_by_start (games_on games (day_of fds + d)) := by
          rw [mem_sorted_by_start, mem_games_on]
          exact ⟨hg, hDg⟩
        rw [hnil] at hmem
        exact absurd hmem (List.not_mem_nil g)
      · right
        have hgS : g ∈ g0 :: rest := by
          rw [← hS, mem_sorted_by_start, mem_games_on]
          exact ⟨hg, hDg⟩
        have hsorted : List.Sorted gle (g0 :: rest) := by
          rw [← hS]
          exact sorted_sorted_by_start _
        have h0min : g0.gs ≤ g.gs := by
          rcases List.mem_cons.mp hgS with rfl | hgrest
          · exact Nat.le_refl _
          · exact (List.sorted_cons.mp hsorted).1 g hgrest
        omega
    · right
      have hg_lb : (day_of fds + d + 1) * 1440 ≤ g.gs := by
        have := (day_of_bounds g.gs).1
        have h2 : day_of fds + d + 1 ≤ day_of g.gs := hDg
        nlinarith [this, h2]
      rcases hcase with ⟨_, hend⟩ | ⟨g0, rest, hS, _, hend⟩
      · omega
      · have hg0 : g0 ∈ games_on games (day_of fds + d) := by
          rw [← mem_sorted_by_start, hS]
          exact List.mem_cons_self _ _
        have := (games_on_bounds games (day_of fds + d) g0 hg0).2
        omega
  · obtain ⟨g0, rest, hS, hstart, hpr, hcase⟩ := mem_day_post cfg games (day_of fds) fds d p hpost
    have hfacts := day_last_facts games fds h (day_of fds + d) g0 rest hS
    rcases Nat.lt_trichotomy (day_of g.gs) (day_of fds + d) with hDg | hDg | hDg
    · left
      have hLmem := hfacts.1
      have hLgames : (rest.getLastD g0) ∈ games := ((mem_games_on _ _ _).mp hLmem).1
      have hLlb := (games_on_bounds games (day_of fds + d) (rest.getLastD g0) hLmem).1
      have hgub := (day_of_bounds g.gs).2
      have h3 : (day_of g.gs + 1) * 1440 ≤ (day_of fds + d) * 1440 := by
        have : day_of g.gs + 1 ≤ day_of fds + d := hDg
        nlinarith [this]
      have hne : g ≠ rest.getLastD g0 := by
        intro hE
        have hEgs : g.gs = (rest.getLastD g0).gs := congrArg Game.gs hE
        omega
      have hdisj := h.disj.forall gdisj_symm hg hLgames hne
      have hLproper := h.proper _ hLgames
      rcases hdisj with h1 | h1
      · omega
      · omega
    · left
      have hge := hfacts.2.2 g (by rw [mem_games_on]; exact ⟨hg, hDg⟩)
      omega
    · right
      have hg_lb : (day_of fds + d + 1) * 1440 ≤ g.gs := by
        have := (day_of_bounds g.gs).1
        have h2 : day_of fds + d + 1 ≤ day_of g.gs := hDg
        nlinarith [this, h2]
      rcases hcase with ⟨hcross, hsub⟩ | ⟨hnc, hend⟩
      · rcases hsub with ⟨hnil, hend⟩ | ⟨h0, rest2, hS2, hlt2, hend⟩
        · have hne1 : day_of g.gs ≠ day_of fds + d + 1 := by
            intro hE
            have hmem : g ∈ sorted_by_start (games_on games (day_of fds + d + 1)) := by
              rw [mem_sorted_by_start, mem_games_on]
              exact ⟨hg, hE⟩
            rw [hnil] at hmem
            exact absurd hmem (List.not_mem_nil g)
          have hg_lb2 : (day_of fds + d + 2) * 1440 ≤ g.gs := by
            have := (day_of_bounds g.gs).1
            have h2 : day_of fds + d + 2 ≤ day_of g.gs := by omega
            nlinarith [this, h2]
          omega
        · by_cases hD1 : day_of g.gs = day_of fds + d + 1
          · have hgS2 : g ∈ h0 :: rest2 := by
              rw [← hS2, mem_sorted_by_start, mem_games_on]
              exact ⟨hg, hD1⟩
            have hsorted2 : List.Sorted gle (h0 :: rest2) := by
              rw [← hS2]
              exact sorted_sorted_by_start _
            have hmin : h0.gs ≤ g.gs := by
              rcases List.mem_cons.mp hgS2 with rfl | hr
              · exact Nat.le_refl _
              · exact (List.sorted_cons.mp hsorted2).1 g hr
            omega
          · have hg_lb2 : (day_of fds + d + 2) * 1440 ≤ g.gs := by
              have := (day_of_bounds g.gs).1
              have h2 : day_of fds + d + 2 ≤ day_of g.gs := by omega
              nlinarith [this, h2]
            have hh0 : h0 ∈ games_on games (day_of fds + d + 1) := by
              rw [← mem_sorted_by_start, hS2]
              exact List.mem_cons_self _ _
            have := (games_on_bounds games (day_of fds + d + 1) h0 hh0).2
            omega
      · omega

theorem day_fillers_pairwise (cfg : FillerCfg) (games : List Game) (fds : Nat)
    (h : NiceInput games fds) (d : Nat) :
    (day_fillers cfg games (day_of fds) fds d).Pairwise PDisj := by
  unfold day_fillers
  rw [List.pairwise_append]
  refine ⟨day_pre_pairwise _ _ _ _ _, day_post_pairwise _ _ _ _ _, ?_⟩
  intro p hpre q hpost
  obtain ⟨_, _, hpr, hcase⟩ := mem_day_pre cfg games (day_of fds) fds d p hpre
  obtain ⟨g0, rest, hS, hstart, _, _⟩ := mem_day_post cfg games (day_of fds) fds d q hpost
  rcases hcase with ⟨hnil, _⟩ | ⟨g0', rest', hS', _, hend⟩
  · rw [hnil] at hS
    exact List.noConfusion hS
  · rw [hS] at hS'
    injection hS' with h1 h2
    left
    have hsorted : List.Sorted gle (g0 :: rest) := by
      rw [← hS]
      exact sorted_sorted_by_start _
    have hg0L : g0.gs ≤ (rest.getLastD g0).gs :=
      sorted_getLastD rest g0 hsorted g0 (List.mem_cons_self _ _)
    have hfacts := day_last_facts games fds h (day_of fds + d) g0 rest hS
    have hLgames : rest.getLastD g0 ∈ games := ((mem_games_on _ _ _).mp hfacts.1).1
    have hLp := h.proper _ hLgames
    rw [← h1] at hend
    omega

theorem day_fillers_cross (cfg : FillerCfg) (games : List Game) (fds : Nat)
    (h : NiceInput games fds) (d d' : Nat) (hlt : d < d') (p q : Programme)
    (hp : p ∈ day_fillers cfg games (day_of fds) fds d)
    (hq : q ∈ day_fillers cfg games (day_of fds) fds d') :
    p.end_dt ≤ q.start_dt := by
  have hq_lb : (day_of fds + d') * 1440 ≤ q.start_dt := by
    rcases List.mem_append.mp hq with hqpre | hqpost
    · have h1 := (mem_day_pre cfg games (day_of fds) fds d' q hqpre).2.1
      have h2 := day_lo_ge fds d'
      omega
    · obtain ⟨k0, krest, hKS, hkstart, _, _⟩ :=
        mem_day_post cfg games (day_of fds) fds d' q hqpost
      have hK := day_last_facts games fds h (day_of fds + d') k0 krest hKS
      have hlb := (games_on_bounds _ _ _ hK.1).1
      have hprop := h.proper _ ((mem_games_on _ _ _).mp hK.1).1
      omega
  rcases List.mem_append.mp hp with hppre | hppost
  · obtain ⟨_, _, _, hcase⟩ := mem_day_pre cfg games (day_of fds) fds d p hppre
    rcases hcase with ⟨_, hend⟩ | ⟨g0, rest, hS, _, hend⟩
    · omega
    · have hg0 : g0 ∈ games_on games (day_of fds + d) := by
        rw [← mem_sorted_by_start, hS]
        exact List.mem_cons_self _ _
      have := (games_on_bounds _ _ _ hg0).2
      omega
  · obtain ⟨g0, rest, hS, _, _, hcase⟩ := mem_day_post cfg games (day_of fds) fds d p hppost
    rcases hcase with ⟨hcross, hsub⟩ | ⟨_, hend⟩
    · by_cases hd2 : d + 2 ≤ d'
      · rcases hsub with ⟨_, hend⟩ | ⟨h0, rest2, hS2, _, hend⟩
        · omega
        · have hh0 : h0 ∈ games_on games (day_of fds + d + 1) := by
            rw [← mem_sorted_by_start, hS2]
            exact List.mem_cons_self _ _
          have := (games_on_bounds _ _ _ hh0).2
          omega
      · have hd1 : d' = d + 1 := by omega
        subst hd1
        have hidx : day_of fds + (d + 1) - 1 = day_of fds + d := by omega
        have hidx2 : day_of fds + (d + 1) = day_of fds + d + 1 := by omega
        have hfacts := day_last_facts games fds h (day_of fds + d) g0 rest hS
        have hLmax : (rest.getLastD g0).ge ≤ max_end (games_on games (day_of fds + d)) :=
          le_max_end _ _ hfacts.1
        have hskip_true : skip_cross games (day_of fds) fds (d + 1) = true := by
          unfold skip_cross
          rw [hidx]
          rw [Bool.and_eq_true]
          constructor
          · rw [Bool.not_eq_eq_eq_not]
            show (games_on games (day_of fds + d)).isEmpty = false
            rw [List.isEmpty_eq_false]
            intro hempty
            have hLm := hfacts.1
            rw [hempty] at hLm
            exact absurd hLm (List.not_mem_nil _)
          · rw [decide_eq_true_eq]
            have hdl : day_lo fds (day_of fds) (d + 1) = (day_of fds + (d + 1)) * 1440 := by
              unfold day_lo
              rw [if_neg (by omega : ¬(d + 1 = 0))]
            rw [hdl]
            omega
        rcases List.mem_append.mp hq with hqpre | hqpost
        · have hq1 := (mem_day_pre cfg games (day_of fds) fds (d + 1) q hqpre).1
          rw [hskip_true] at hq1
          exact absurd hq1 (by simp)
        · obtain ⟨k0, krest, hKS, hkstart, _, _⟩ :=
            mem_day_post cfg games (day_of fds) fds (d + 1) q hqpost
          rw [hidx2] at hKS
          rcases hsub with ⟨hnil, _⟩ | ⟨h0, rest2, hS2, _, hend⟩
          · rw [hnil] at hKS
            exact List.noConfusion hKS
          · rw [hS2] at hKS
            injection hKS with hk1 hk2
            have hK := day_last_facts games fds h (day_of fds + d + 1) h0 rest2 hS2
            have hsorted2 : List.Sorted gle (h0 :: rest2) := by
              rw [← hS2]
              exact sorted_sorted_by_start _
            have hmin : h0.gs ≤ (rest2.getLastD h0).gs :=
              sorted_getLastD rest2 h0 hsorted2 h0 (List.mem_cons_self _ _)
            have hLp := h.proper _ ((mem_games_on _ _ _).mp hK.1).1
            rw [← hk1, ← hk2] at hkstart
            omega
    · omega

theorem epg_combined_facts (cfg : FillerCfg) (games : List Game) (fds n : Nat)
    (h : NiceInput games fds) :
    (games.map game_programme ++ generate_filler_entries cfg games fds n).Pairwise PDisj ∧
    ∀ p ∈ games.map game_programme ++ generate_filler_entries cfg games fds n,
      p.start_dt < p.end_dt := by
  constructor
  · rw [List.pairwise_append]
    refine ⟨?_, ?_, ?_⟩
    · rw [List.pairwise_map]
      exact h.disj.imp (fun hab => hab)
    · unfold generate_filler_entries
      rw [List.pairwise_flatten]
      constructor
      · intro l hl
        obtain ⟨d, _, rfl⟩ := List.mem_map.mp hl
        exact day_fillers_pairwise cfg games fds h d
      · rw [List.pairwise_map]
        exact (List.pairwise_lt_range n).imp
          (fun hab x hx y hy =>
            Or.inl (day_fillers_cross cfg games fds h _ _ hab x y hx hy))
    · intro a ha b hb
      obtain ⟨g, hg, rfl⟩ := List.mem_map.mp ha
      unfold generate_filler_entries at hb
      obtain ⟨l, hl, hbl⟩ := List.mem_flatten.mp hb
      obtain ⟨d, _, rfl⟩ := List.mem_map.mp hl
      exact day_filler_game_disj cfg games fds h d b hbl g hg
  · intro p hp
    rcases List.mem_append.mp hp with hpg | hpf
    · obtain ⟨g, hg, rfl⟩ := List.mem_map.mp hpg
      exact h.proper g hg
    · unfold generate_filler_entries at hpf
      obtain ⟨l, hl, hbl⟩ := List.mem_flatten.mp hpf
      obtain ⟨d, _, rfl⟩ := List.mem_map.mp hl
      rcases List.mem_append.mp hbl with h1 | h1
      · exact (mem_day_pre _ _ _ _ _ _ h1).2.2.1
      · obtain ⟨g0, rest, _, _, hpr, _⟩ := mem_day_post _ _ _ _ _ _ h1
        exact hpr

theorem chain_of_sorted_disj : ∀ (l : List Programme), l.Sorted ple → l.Pairwise PDisj →
    (∀ p ∈ l, p.start_dt < p.end_dt) →
    l.Chain' (fun a b => a.end_dt ≤ b.start_dt) := by
  intro l
  induction l with
  | nil =>
      intro _ _ _
      exact List.chain'_nil
  | cons a t ih =>
      intro hs hp hpr
      cases t with
      | nil => exact List.chain'_singleton a
      | cons b t2 =>
          rw [List.chain'_cons]
          constructor
          · have hab : PDisj a b := (List.pairwise_cons.mp hp).1 b (List.mem_cons_self _ _)
            have hle : ple a b := (List.sorted_cons.mp hs).1 b (List.mem_cons_self _ _)
            have hbpr : b.start_dt < b.end_dt := hpr b (List.mem_cons_of_mem _ (List.mem_cons_self _ _))
            have hle' : a.start_dt ≤ b.start_dt := hle
            rcases hab with h1 | h1
            · exact h1
            · omega
          · exact ih (List.sorted_cons.mp hs).2 (List.pairwise_cons.mp hp).2
              (fun p hp' => hpr p (List.mem_cons_of_mem _ hp'))

/-- **C6**: the per-team output sequence (games plus pregame/postgame/idle
filler) is emitted sorted by `start_datetime`, so starts are non-decreasing;
and whenever the input games are proper intervals starting inside the EPG
window, pairwise non-overlapping and each spanning at most one midnight,
adjacent programmes are non-overlapping: every programme's `end_datetime` is
at or before the next programme's `start_datetime`. -/
theorem epg_timeline_sorted_nonoverlap (cfg : FillerCfg) (games : List Game)
    (fds days_ahead : Nat) (h : NiceInput games fds) :
    (process_team_schedule cfg games fds days_ahead).Sorted ple ∧
    (process_team_schedule cfg games fds days_ahead).Chain'
      (fun a b => a.end_dt ≤ b.start_dt) := by
  have hsorted : (process_team_schedule cfg games fds days_ahead).Sorted ple :=
    List.sorted_insertionSort ple _
  refine ⟨hsorted, ?_⟩
  have hperm : List.Perm (process_team_schedule cfg games fds days_ahead)
      (games.map game_programme ++ generate_filler_entries cfg games fds days_ahead) :=
    List.perm_insertionSort ple _
  have hfacts := epg_combined_facts cfg games fds days_ahead h
  have hpw : (process_team_schedule cfg games fds days_ahead).Pairwise PDisj :=
    (List.Perm.pairwise_iff (fun h12 => pdisj_symm h12) hperm).mpr hfacts.1
  have hproper : ∀ p ∈ process_team_schedule cfg games fds days_ahead,
      p.start_dt < p.end_dt :=
    fun p hp => hfacts.2 p (hperm.subset hp)
  exact chain_of_sorted_disj _ hsorted hpw hproper

/-- Executable check of adjacent non-overlap. -/
def chain_ok : List Programme → Bool
  | [] => true
  | [_] => true
  | a :: b :: rest => decide (a.end_dt ≤ b.start_dt) && chain_ok (b :: rest)

theorem chain_ok_iff : ∀ l : List Programme,
    chain_ok l = true ↔ l.Chain' (fun a b => a.end_dt ≤ b.start_dt) := by
  intro l
  induction l with
  | nil => simp [chain_ok]
  | cons a t ih =>
      cases t with
      | nil => simp [chain_ok]
      | cons b t2 =>
          rw [List.chain'_cons]
          unfold chain_ok
          rw [Bool.and_eq_true, decide_eq_true_eq, ih]

/-- Two overlapping input games on the same day (here 10:00-15:00 and
11:00-16:00 on day 1) pass through `_process_team_schedule` unchanged, so the
sorted output contains adjacent overlapping programmes, refuting the
unconditional non-overlap claim. -/
theorem epg_timeline_overlap_counterexample :
    ¬ (process_team_schedule ⟨true, true, true, "idle"⟩
        [⟨2040, 2340⟩, ⟨2100, 2400⟩] 1440 1).Chain'
      (fun a b => a.end_dt ≤ b.start_dt) := by
  intro hch
  have h1 := (chain_ok_iff _).mpr hch
  have h2 : chain_ok (process_team_schedule ⟨true, true, true, "idle"⟩
      [⟨2040, 2340⟩, ⟨2100, 2400⟩] 1440 1) = false := by decide
  rw [h2] at h1
  exact absurd h1 (by decide)

theorem epg_timeline_sorted_nonoverlap_witness :
    NiceInput [(⟨1500, 1620⟩ : Game), ⟨2940, 3180⟩] 1440 ∧
    ((process_team_schedule ⟨true, true, true, "idle"⟩
        [⟨1500, 1620⟩, ⟨2940, 3180⟩] 1440 3).Sorted ple ∧
     (process_team_schedule ⟨true, true, true, "idle"⟩
        [⟨1500, 1620⟩, ⟨2940, 3180⟩] 1440 3).Chain'
       (fun a b => a.end_dt ≤ b.start_dt)) :=
  (fun hni => ⟨hni, epg_timeline_sorted_nonoverlap _ _ _ _ hni⟩)
    ⟨by decide, by decide, by decide, by decide, by decide⟩

end Teamarr
